import Mathlib

/-!
Verification development for the "Mamba Kick" browser game repository
(shipped v0.2 tree, v0.2_revert tree and v0.3_backup tree).

Each namespace below is a shallow embedding of one source file / class:

* `ObstacleM`          — `src/scripts/objects/obstacle.ts` (`Obstacle`)
* `SimpleShooter`      — `src/scripts/scenes/simpleShooterScene.ts`
                         (shipped scene: two-press aiming, ping-pong sweep)

Conventions: JavaScript `Map`s are modelled as insertion-ordered
association lists, JS `Set`s as `Finset`, millisecond timestamps as `Int`
(JS numbers holding integral ms), and fractional game quantities as `ℚ`.
Purely visual state (colours, visibility flags, tween cosmetics) carried
by the Phaser objects is not part of the embedded state; it never feeds
back into the control logic under verification.
-/

namespace GameModules

/-!
Module-dependency graph of the repository, one constructor per source
module, with `imports` translated from each file's import statements.
`phaser` stands for the external rendering engine package. The shipped
`game.ts` also contains an `import MainScene from './scenes/mainScene'`
line, but no `scenes/mainScene` file exists in the shipped `src` tree
(only the v0.2_revert and v0.3_backup trees carry one) and `MainScene`
does not appear in the shipped scene list, so runtime reachability is
seeded by `sceneList` alone.
-/

/-- Source modules of the repository relevant to the shipped game and the
v0.3_backup grass feature. `mainSceneBackup` is the v0.3 backup main
scene (the only scene wired to the grass/resource/error machinery). -/
inductive Module where
  | game
  | simpleShooterScene
  | obstacle
  | developerMenu
  | versionManager
  | mainSceneBackup
  | atlasGrassTexture
  | resourceManager
  | memoryOptimizer
  | errorHandler
  | performanceMonitor
  | phaser
deriving DecidableEq, Repr

open Module

/-- Import edges, read off the import statements of each source file. -/
def imports : Module → List Module
  | game => [phaser, simpleShooterScene]
  | simpleShooterScene => [phaser]
  | obstacle => [phaser]
  | developerMenu => [phaser, versionManager]
  | versionManager => []
  | mainSceneBackup =>
      [phaser, obstacle, developerMenu, versionManager, atlasGrassTexture,
        resourceManager, performanceMonitor, memoryOptimizer, errorHandler]
  | atlasGrassTexture => [performanceMonitor]
  | resourceManager => [performanceMonitor]
  | memoryOptimizer => [performanceMonitor]
  | errorHandler => [performanceMonitor]
  | performanceMonitor => []
  | phaser => []

/-- The shipped game configuration's scene list,
`scene: [SimpleShooterScene]` in `game.ts`. -/
def sceneList : List Module := [simpleShooterScene]

/-- Call/dependency reachability: module `c` can be reached from module
`a` by following import edges (execution starting in `a` can only ever
call code in modules reachable this way). -/
inductive Reaches : Module → Module → Prop where
  | refl (m : Module) : Reaches m m
  | step {a b c : Module} : b ∈ imports a → Reaches b c → Reaches a c

end GameModules

namespace ObstacleM

/-- Grid dimensions from `Obstacle`: `rows = 4`, `columns = 3`. -/
def rows : Nat := 4

/-- Number of columns of the block grid. -/
def columns : Nat := 3

/-- The constructed `totalBlocks = rows * columns`. -/
def totalBlocks : Nat := rows * columns

/-- State of an `Obstacle`: the `blocks` array (blocks identified by the
ids `0 .. 11` given to them by creation order) and the
`destroyedBlocks` counter. -/
structure State where
  blocks : List Nat
  destroyedBlocks : Nat
deriving Repr, DecidableEq

/-- The state after the constructor ran `createBlocks`: one block per
grid cell, none destroyed. -/
def createBlocks : State :=
  { blocks := List.range totalBlocks, destroyedBlocks := 0 }

/-- The method `destroyBlock`: looks the block up with `indexOf`; if present,
removes that one entry with `splice`, increments `destroyedBlocks` and
returns `true`; otherwise changes nothing and returns `false`. -/
def destroyBlock (s : State) (b : Nat) : State × Bool :=
  if b ∈ s.blocks then
    ({ blocks := s.blocks.erase b, destroyedBlocks := s.destroyedBlocks + 1 }, true)
  else
    (s, false)

/-- Accessor `getBlockCount`. -/
def getBlockCount (s : State) : Nat := s.blocks.length

/-- Accessor `getDestroyedCount`. -/
def getDestroyedCount (s : State) : Nat := s.destroyedBlocks

/-- The method `isCompleted`: `destroyedBlocks >= totalBlocks`. -/
def isCompleted (s : State) : Bool := decide (s.destroyedBlocks ≥ totalBlocks)

/-- States reachable from construction by any sequence of
`destroyBlock` calls (with arbitrary block arguments). -/
def Reachable (s : State) : Prop :=
  ∃ calls : List Nat, calls.foldl (fun t b => (destroyBlock t b).1) createBlocks = s

/-- Inductive invariant: the block list has no duplicates and blocks
present plus blocks destroyed always total 12. -/
def Inv (s : State) : Prop :=
  s.blocks.Nodup ∧ s.blocks.length + s.destroyedBlocks = totalBlocks

end ObstacleM

namespace SimpleShooter

/-!
Shipped scene `src/scripts/scenes/simpleShooterScene.ts`, aiming-sweep
fragment: fields `currentRotation` / `rotationDirection` / `rotationSpeed`,
method `updateAimingRotation` and the state entry `activateAimingMode`.
The arrow display (`mappedRotation`, `setRotation`) only draws the sprite
and never feeds back into `currentRotation`, so it is not part of the
embedded state.
-/

/-- Sweep state of the aiming arrow: `currentRotation` in degrees and
`rotationDirection` (`1` clockwise, `-1` counter-clockwise). -/
structure AimState where
  currentRotation : ℚ
  rotationDirection : ℚ
deriving Repr, DecidableEq

/-- Field `rotationSpeed = 100` degrees per second. -/
def rotationSpeed : ℚ := 100

/-- Effect of `activateAimingMode` on the sweep state: rotation reset to
`270` (6 o'clock) and direction `-1`. -/
def activateAimingMode : AimState :=
  { currentRotation := 270, rotationDirection := -1 }

/-- Method `updateAimingRotation(delta)`: advance by
`rotationSpeed * delta / 1000 * rotationDirection`, then clamp to
`[90, 270]`, reversing direction at either bound. -/
def updateAimingRotation (delta : ℚ) (s : AimState) : AimState :=
  let rotationAmount := rotationSpeed * delta / 1000 * s.rotationDirection
  let r := s.currentRotation + rotationAmount
  if r > 270 then
    { currentRotation := 270, rotationDirection := -1 }
  else if r < 90 then
    { currentRotation := 90, rotationDirection := 1 }
  else
    { currentRotation := r, rotationDirection := s.rotationDirection }

/-- Invariant maintained over the AIMING state: rotation stays in
`[90, 270]` and the direction is one of the two legal values. -/
def AimInv (s : AimState) : Prop :=
  90 ≤ s.currentRotation ∧ s.currentRotation ≤ 270 ∧
    (s.rotationDirection = 1 ∨ s.rotationDirection = -1)

/-- Folding a whole frame sequence of `updateAimingRotation` calls. -/
def runUpdates (deltas : List ℚ) (s : AimState) : AimState :=
  deltas.foldl (fun t d => updateAimingRotation d t) s

end SimpleShooter

namespace ShooterScene

/-!
The v0.3 backup main scene (`SimpleShooterScene` of the grass-feature
tree): spacebar-driven aiming ritual (`handleSpacebarPress` and the state
functions it dispatches to) and projectile bounce/fade behaviour
(`handleProjectileBounce`, `startProjectileFadeOut` and the fade tween's
completion callback).

The orbiting-dot position and the pulsating strength value are computed
each frame by real-valued trigonometry (`Math.cos`/`Math.sin`); the press
handler only reads them, so the dot position at press time is passed to
the handler as an input and `currentStrength` is an ordinary state field.
Likewise `Math.sqrt` of the squared direction length, used once to
normalise the locked direction, is passed as an input (`sqrtLen`).
Colours, visibility flags and the state-text label are display-only and
not part of the embedded state.
-/

/-- The scene's `GameState` enum. -/
inductive GameState where
  | IDLE
  | DIRECTION_SELECTION
  | STRENGTH_SELECTION
  | FIRING
  | WIN
deriving DecidableEq, Repr

/-- Fade tween attached to a projectile by `startProjectileFadeOut`:
animate `alpha` to `targetAlpha` over `duration` milliseconds. -/
structure FadeTween where
  targetAlpha : ℚ
  duration : Nat
deriving DecidableEq, Repr

/-- A projectile with its physics body velocity and the data entries
`bounceCount`, `fading` and `initialSpeed` set by `fireProjectile`. -/
structure Projectile where
  vx : ℚ
  vy : ℚ
  bounceCount : Nat
  fading : Bool
  initialSpeed : ℚ
  fadeTween : Option FadeTween
deriving DecidableEq, Repr

/-- Control-relevant scene state of the v0.3 `SimpleShooterScene`. -/
structure SceneState where
  gameState : GameState
  lastSpacebarPressTime : Int
  inputBuffer : Bool
  lockedDirectionX : ℚ
  lockedDirectionY : ℚ
  currentStrength : ℚ
  strengthSelectionStartTime : Int
  strengthPulseTime : ℚ
  orbitAngle : ℚ
  orbitDirection : ℚ
  projectiles : List Projectile
deriving DecidableEq, Repr

/-- Field `spacebarCooldown = 250` ms. -/
def spacebarCooldown : Int := 250

/-- The aiming circle's centre x: `width / 2 = 400`. -/
def centerX : ℚ := 400

/-- The aiming circle's centre y: `height - 100 = 500`. -/
def centerY : ℚ := 500

/-- `minSpeed = 50` in `fireProjectile`. -/
def minSpeed : ℚ := 50

/-- `maxSpeed = 1500` in `fireProjectile`. -/
def maxSpeed : ℚ := 1500

/-- `velocityReductionFactor = 0.82` in `handleProjectileBounce`. -/
def velocityReductionFactor : ℚ := 0.82

/-- Method `activateDirectionSelection`: enter direction selection and
reset the orbit sweep (visibility changes are display-only). -/
def activateDirectionSelection (s : SceneState) : SceneState :=
  { s with gameState := GameState.DIRECTION_SELECTION,
           orbitAngle := 0, orbitDirection := 1 }

/-- Method `lockDirectionAndStartStrengthSelection`: lock the direction
vector from the orbiting dot's offset to the circle centre, enter
strength selection and reset the strength pulse timers. -/
def lockDirectionAndStartStrengthSelection (now : Int) (dotX dotY : ℚ)
    (s : SceneState) : SceneState :=
  { s with lockedDirectionX := dotX - centerX,
           lockedDirectionY := dotY - centerY,
           gameState := GameState.STRENGTH_SELECTION,
           strengthSelectionStartTime := now,
           strengthPulseTime := 0 }

/-- Method `resetSystem`: back to `IDLE`, timing variables and the input
buffer cleared. -/
def resetSystem (s : SceneState) : SceneState :=
  { s with gameState := GameState.IDLE,
           lastSpacebarPressTime := 0,
           strengthSelectionStartTime := 0,
           strengthPulseTime := 0,
           inputBuffer := false }

/-- Method `fireProjectile(strength)`: create a projectile at the locked
dot position with velocity `normalizedDir * speed`, where
`speed = minSpeed + strength * (maxSpeed - minSpeed)` and `sqrtLen` is
`Math.sqrt` of the squared direction length, then `resetSystem`. -/
def fireProjectile (sqrtLen : ℚ) (strength : ℚ) (s : SceneState) : SceneState :=
  let directionX := s.lockedDirectionX
  let directionY := s.lockedDirectionY
  let normalizedDirX := directionX / sqrtLen
  let normalizedDirY := directionY / sqrtLen
  let speed := minSpeed + strength * (maxSpeed - minSpeed)
  let p : Projectile :=
    { vx := normalizedDirX * speed, vy := normalizedDirY * speed,
      bounceCount := 0, fading := false, initialSpeed := speed,
      fadeTween := none }
  resetSystem { s with projectiles := s.projectiles ++ [p] }

/-- Method `lockStrengthAndFire`: lock the current strength, enter
`FIRING` and fire with the locked strength and direction. -/
def lockStrengthAndFire (sqrtLen : ℚ) (s : SceneState) : SceneState :=
  let lockedStrength := s.currentStrength
  fireProjectile sqrtLen lockedStrength { s with gameState := GameState.FIRING }

/-- Method `handleSpacebarPress`: debounced state machine over spacebar
presses. A press within the cooldown window is only buffered (in the
input-accepting states); an accepted press dispatches on the game
state. -/
def handleSpacebarPress (now : Int) (dotX dotY sqrtLen : ℚ)
    (s : SceneState) : SceneState :=
  if now - s.lastSpacebarPressTime < spacebarCooldown then
    if s.gameState = GameState.IDLE ∨ s.gameState = GameState.DIRECTION_SELECTION ∨
        s.gameState = GameState.STRENGTH_SELECTION then
      { s with inputBuffer := true }
    else
      s
  else
    let s1 := { s with lastSpacebarPressTime := now, inputBuffer := false }
    match s1.gameState with
    | GameState.IDLE => activateDirectionSelection s1
    | GameState.DIRECTION_SELECTION =>
        lockDirectionAndStartStrengthSelection now dotX dotY s1
    | GameState.STRENGTH_SELECTION => lockStrengthAndFire sqrtLen s1
    | GameState.FIRING => { s1 with inputBuffer := true }
    | GameState.WIN => s1

/-- Method `startProjectileFadeOut`: mark the projectile as fading and
attach the 500 ms fade-to-alpha-0 tween. -/
def startProjectileFadeOut (p : Projectile) : Projectile :=
  { p with fading := true, fadeTween := some { targetAlpha := 0, duration := 500 } }

/-- Method `handleProjectileBounce`: increment the bounce count, scale
both velocity components by `velocityReductionFactor`, and once the new
count reaches 4 start the fade-out unless one is already running. -/
def handleProjectileBounce (p : Projectile) : Projectile :=
  let currentBounces := p.bounceCount
  let p1 := { p with bounceCount := currentBounces + 1,
                     vx := p.vx * velocityReductionFactor,
                     vy := p.vy * velocityReductionFactor }
  if currentBounces + 1 ≥ 4 then
    if p1.fading then p1 else startProjectileFadeOut p1
  else
    p1

/-- The fade tween's `onComplete` callback: destroy the projectile (here:
remove index `i` from the group) and return the game state to `IDLE`
when no active projectile remains. -/
def completeProjectileFade (s : SceneState) (i : Nat) : SceneState :=
  let ps := s.projectiles.eraseIdx i
  if ps.length = 0 then
    { s with projectiles := ps, gameState := GameState.IDLE }
  else
    { s with projectiles := ps }

end ShooterScene

namespace AtlasGrass

/-!
The `AtlasGrassTexture` sprite pool
(`v0.3_backup/src/scripts/systems/atlasGrassTexture.ts`): fields
`spritePool` (a JS array used as a stack: `push`/`pop` on the same end,
modelled as cons/head) and `activeSprites` (a JS `Set`). Sprites are
identified by creation ids; `scene.add.image` is modelled as handing out
the next fresh id. Position, crop frame and visibility of a tile are
display-only and omitted. The only caller of `returnSpriteToPool`
(`optimizePerformance`) passes sprites drawn from `activeSprites`, so the
return transition is guarded accordingly.
-/

/-- Pool/sprite state of `AtlasGrassTexture`. -/
structure AtlasState where
  spritePool : List Nat
  activeSprites : Finset Nat
  nextSpriteId : Nat
  renderCount : Nat
deriving DecidableEq

/-- Pool pre-allocation size `poolSize = 50` in `initializeObjectPools`. -/
def poolSize : Nat := 50

/-- Total-sprite limit `200` in `getPooledSprite`. -/
def spriteLimit : Nat := 200

/-- Method `initializeObjectPools`: pre-allocate `poolSize` sprites into
the pool (ids `0 .. 49`, the last one pushed on top). -/
def initializeObjectPools : AtlasState :=
  { spritePool := (List.range poolSize).reverse,
    activeSprites := ∅,
    nextSpriteId := poolSize,
    renderCount := 0 }

/-- Method `getPooledSprite`: pop from the pool if it is non-empty;
otherwise create a fresh sprite while fewer than `spriteLimit` sprites
are active; otherwise return `null`. -/
def getPooledSprite (s : AtlasState) : Option (Nat × AtlasState) :=
  match s.spritePool with
  | sprite :: rest => some (sprite, { s with spritePool := rest })
  | [] =>
      if s.activeSprites.card < spriteLimit then
        some (s.nextSpriteId, { s with nextSpriteId := s.nextSpriteId + 1 })
      else
        none

/-- Method `createGrassTile`: take a sprite from `getPooledSprite`; when
it returns `null` no tile is created, otherwise the sprite joins
`activeSprites` and `renderCount` is incremented. -/
def createGrassTile (s : AtlasState) : AtlasState :=
  match getPooledSprite s with
  | none => s
  | some (sprite, s1) =>
      { s1 with activeSprites := insert sprite s1.activeSprites,
                renderCount := s1.renderCount + 1 }

/-- Method `returnSpriteToPool`: remove the sprite from `activeSprites`
and push it back onto the pool. -/
def returnSpriteToPool (s : AtlasState) (sprite : Nat) : AtlasState :=
  { s with activeSprites := s.activeSprites.erase sprite,
           spritePool := sprite :: s.spritePool }

/-- Pool operations performed by the system: tile creation, and sprite
returns (issued by `optimizePerformance` only for active sprites). -/
inductive AtlasOp where
  | create
  | ret (sprite : Nat)

/-- One step of the pool system. -/
def atlasStep (s : AtlasState) : AtlasOp → AtlasState
  | AtlasOp.create => createGrassTile s
  | AtlasOp.ret sprite =>
      if sprite ∈ s.activeSprites then returnSpriteToPool s sprite else s

/-- States reachable from initialization by any sequence of pool
operations. -/
def Reachable (s : AtlasState) : Prop :=
  ∃ ops : List AtlasOp, ops.foldl atlasStep initializeObjectPools = s

/-- Inductive invariant of the sprite pool: at most `spriteLimit` active
sprites; whenever the pool is non-empty, active plus pooled sprites stay
within the limit; pool and active set are disjoint, the pool has no
duplicates, and all sprite ids are below the allocation counter. -/
def AtlasInv (s : AtlasState) : Prop :=
  s.activeSprites.card ≤ spriteLimit ∧
  (s.spritePool ≠ [] → s.activeSprites.card + s.spritePool.length ≤ spriteLimit) ∧
  (∀ x ∈ s.spritePool, x ∉ s.activeSprites) ∧
  s.spritePool.Nodup ∧
  (∀ x ∈ s.spritePool, x < s.nextSpriteId) ∧
  (∀ x ∈ s.activeSprites, x < s.nextSpriteId)

end AtlasGrass

namespace JSMap

/-!
Insertion-ordered association-list model of the JavaScript `Map`:
`get`/`has` read the first matching key, `set` updates an existing entry
in place or appends a new one at the end, `delete` removes the entry.
-/

variable {K V : Type} [DecidableEq K]

/-- `Map.get`. -/
def mapGet (k : K) : List (K × V) → Option V
  | [] => none
  | (k1, v) :: rest => if k1 = k then some v else mapGet k rest

/-- `Map.has`. -/
def mapHas (k : K) (l : List (K × V)) : Bool := (mapGet k l).isSome

/-- `Map.set`. -/
def mapSet (k : K) (v : V) : List (K × V) → List (K × V)
  | [] => [(k, v)]
  | (k1, v1) :: rest => if k1 = k then (k, v) :: rest else (k1, v1) :: mapSet k v rest

/-- `Map.delete` (the state change; the returned boolean is not modelled
here because no caller of the embedded code reads it). -/
def mapDelete (k : K) : List (K × V) → List (K × V)
  | [] => []
  | (k1, v1) :: rest => if k1 = k then rest else (k1, v1) :: mapDelete k rest

end JSMap

namespace ErrorHandlerCB

/-!
Circuit-breaker fragment of `ErrorHandler`
(`v0.3_backup/src/scripts/utils/errorHandler.ts`): the `circuitBreakers`
map, `isCircuitBreakerOpen`, `updateCircuitBreaker`, and the breaker gate
of `handleError`. `Date.now()` is passed in as the input `now`. Logging,
metric recording, error callbacks and the retry bookkeeping of
`executeFallbackStrategy` are side effects that do not influence the
breaker state; the fallback strategy's own outcome is the external input
`fallbackSucceeds`. Only `handleError`'s catch branch ever records a
failure, and nothing in the file records a success, but the
success branch of `updateCircuitBreaker` is embedded as written.
-/

/-- Breaker state strings `'closed'`, `'open'`, `'half-open'`. -/
inductive CBState where
  | closed
  | opened
  | halfOpen
deriving DecidableEq, Repr

/-- The `CircuitBreaker` record. -/
structure CircuitBreaker where
  state : CBState
  failureCount : Nat
  lastFailure : Int
  threshold : Nat
  timeout : Int
deriving DecidableEq, Repr

/-- The breaker created by `updateCircuitBreaker` for a component not yet
tracked: closed, no failures, `threshold = 5`, `timeout = 60000`. -/
def newBreaker : CircuitBreaker :=
  { state := CBState.closed, failureCount := 0, lastFailure := 0,
    threshold := 5, timeout := 60000 }

/-- The `circuitBreakers` map keyed by component name. -/
abbrev Breakers := List (String × CircuitBreaker)

/-- Method `isCircuitBreakerOpen`: an untracked component is not open; an
open breaker whose last failure lies more than `timeout` ms in the past
moves to half-open; the result reports whether the (possibly updated)
breaker is open. -/
def isCircuitBreakerOpen (breakers : Breakers) (component : String)
    (now : Int) : Bool × Breakers :=
  match JSMap.mapGet component breakers with
  | none => (false, breakers)
  | some breaker =>
      let breaker1 :=
        if breaker.state = CBState.opened ∧ now - breaker.lastFailure > breaker.timeout then
          { breaker with state := CBState.halfOpen }
        else
          breaker
      (decide (breaker1.state = CBState.opened), JSMap.mapSet component breaker1 breakers)

/-- Method `updateCircuitBreaker`: fetch the component's breaker,
creating the default one if absent; a success resets the failure count
and closes the breaker; a failure increments the count, stamps
`lastFailure` and opens the breaker once the count reaches the
threshold. -/
def updateCircuitBreaker (breakers : Breakers) (component : String)
    (success : Bool) (now : Int) : Breakers :=
  let breaker := (JSMap.mapGet component breakers).getD newBreaker
  let breaker1 :=
    if success then
      { breaker with failureCount := 0, state := CBState.closed }
    else
      let fc := breaker.failureCount + 1
      { breaker with
          failureCount := fc
          lastFailure := now
          state := (if fc ≥ breaker.threshold then CBState.opened else breaker.state) }
  JSMap.mapSet component breaker1 breakers

/-- Outcome of one `handleError` call: the returned value (`none` models
`null`), whether a fallback strategy was executed, and the breaker map
afterwards. -/
structure HandleOutcome where
  result : Option Unit
  fallbackExecuted : Bool
  breakers : Breakers
deriving DecidableEq, Repr

/-- Breaker-relevant skeleton of `handleError`: when the circuit breaker
for the component is open the call returns `null` without touching any
fallback strategy; otherwise, with a fallback key present, the strategy
runs — its value is returned on success, and on failure the breaker
records the failure and `null` is returned; without a fallback key the
call returns `null`. -/
def handleError (breakers : Breakers) (component : String)
    (fallbackKey : Option String) (fallbackSucceeds : Bool)
    (now : Int) : HandleOutcome :=
  let r := isCircuitBreakerOpen breakers component now
  if r.1 then
    { result := none, fallbackExecuted := false, breakers := r.2 }
  else
    match fallbackKey with
    | some _ =>
        if fallbackSucceeds then
          { result := some (), fallbackExecuted := true, breakers := r.2 }
        else
          { result := none, fallbackExecuted := true,
            breakers := updateCircuitBreaker r.2 component false now }
    | none => { result := none, fallbackExecuted := false, breakers := r.2 }

end ErrorHandlerCB

namespace VersionManagerM

/-!
`VersionManager` (`utils/versionManager.ts`, bundled after the error
handler in the backup tree): the `versions` map, the `currentVersion`
pointer, and the methods `registerVersion`, `hasVersion`,
`getCurrentVersion` and `switchVersion`.
-/

/-- The `GameVersion` interface (the optional `description` modelled as a
plain string). -/
structure GameVersion where
  id : String
  name : String
  description : String
  isActive : Bool
deriving DecidableEq, Repr

/-- Manager state: registered versions keyed by id, and the current
version id. -/
structure VMState where
  versions : List (String × GameVersion)
  currentVersion : String
deriving DecidableEq, Repr

/-- Method `registerVersion`. -/
def registerVersion (s : VMState) (v : GameVersion) : VMState :=
  { s with versions := JSMap.mapSet v.id v s.versions }

/-- The singleton's constructor: `currentVersion = 'v0.2'` with v0.2
registered as active. -/
def initialState : VMState :=
  registerVersion
    { versions := [], currentVersion := "v0.2" }
    { id := "v0.2", name := "Version 0.2",
      description := "Stable release with developer menu and version control",
      isActive := true }

/-- Method `hasVersion`. -/
def hasVersion (s : VMState) (versionId : String) : Bool :=
  JSMap.mapHas versionId s.versions

/-- Method `getCurrentVersion`. -/
def getCurrentVersion (s : VMState) : Option GameVersion :=
  JSMap.mapGet s.currentVersion s.versions

/-- Method `switchVersion`: fail on an unregistered id; otherwise clear
`isActive` on the current version's record, set it on the requested one,
and move the `currentVersion` pointer. -/
def switchVersion (s : VMState) (versionId : String) : VMState × Bool :=
  if hasVersion s versionId = false then
    (s, false)
  else
    let s1 :=
      match JSMap.mapGet s.currentVersion s.versions with
      | some oldVersion =>
          { s with versions :=
              JSMap.mapSet s.currentVersion { oldVersion with isActive := false } s.versions }
      | none => s
    let s2 :=
      match JSMap.mapGet versionId s1.versions with
      | some newVersion =>
          { s1 with versions :=
              JSMap.mapSet versionId { newVersion with isActive := true } s1.versions }
      | none => s1
    ({ s2 with currentVersion := versionId }, true)

end VersionManagerM

namespace LRU

/-!
The `LRUCache<K, V>` class of the resource manager module (bundled with
`ResourceManager`, which constructs it with capacity 50): the `cache`
map, the `accessOrder` array (front = least recently accessed, back =
most recently accessed), `maxSize`, and the hit/miss counters.

`times` and `clock` are ghost instrumentation for stating recency: every
operation advances `clock`, and the recorded access (a `get` hit, or any
`set`) stamps the key with the current clock. No operation ever reads
them, so they do not influence the cache behaviour.
-/

/-- State of an `LRUCache<K, V>` instance, plus ghost recency clocks. -/
structure CacheState (K V : Type) where
  cache : List (K × V)
  accessOrder : List K
  maxSize : Nat
  hits : Nat
  misses : Nat
  times : K → Nat
  clock : Nat

variable {K V : Type} [DecidableEq K]

/-- The `LRUCache` constructor. -/
def mkCache (maxSize : Nat) : CacheState K V :=
  { cache := [], accessOrder := [], maxSize := maxSize, hits := 0, misses := 0,
    times := fun _ => 0, clock := 0 }

/-- Private method `updateAccessOrder`: drop the key from the order and
push it to the back (most recent position). -/
def updateAccessOrder (order : List K) (k : K) : List K :=
  (order.filter (fun k2 => k2 != k)) ++ [k]

/-- Method `get`: on a hit, refresh the key's recency and count a hit;
on a miss count a miss and return `undefined`. -/
def getOp (s : CacheState K V) (k : K) : Option V × CacheState K V :=
  if JSMap.mapHas k s.cache then
    (JSMap.mapGet k s.cache,
      { s with
          accessOrder := updateAccessOrder s.accessOrder k
          hits := s.hits + 1
          times := Function.update s.times k s.clock
          clock := s.clock + 1 })
  else
    (none, { s with misses := s.misses + 1, clock := s.clock + 1 })

/-- Private method `evictLRU`: shift the front (least recently accessed)
key off the order and delete its entry. -/
def evictLRU (s : CacheState K V) : CacheState K V :=
  match s.accessOrder with
  | [] => s
  | lruKey :: rest =>
      { s with cache := JSMap.mapDelete lruKey s.cache, accessOrder := rest }

/-- Method `set`: overwrite and refresh an existing key; for a fresh key
first evict the LRU entry if the cache is at capacity, then append the
entry and push the key as most recent. -/
def setOp (s : CacheState K V) (k : K) (v : V) : CacheState K V :=
  if JSMap.mapHas k s.cache then
    { s with
        cache := JSMap.mapSet k v s.cache
        accessOrder := updateAccessOrder s.accessOrder k
        times := Function.update s.times k s.clock
        clock := s.clock + 1 }
  else
    let s1 := if s.cache.length ≥ s.maxSize then evictLRU s else s
    { s1 with
        cache := JSMap.mapSet k v s1.cache
        accessOrder := s1.accessOrder ++ [k]
        times := Function.update s1.times k s1.clock
        clock := s1.clock + 1 }

/-- Method `delete`: remove the entry and its order position, reporting
whether the key was present. -/
def deleteOp (s : CacheState K V) (k : K) : CacheState K V × Bool :=
  if JSMap.mapHas k s.cache then
    ({ s with
        cache := JSMap.mapDelete k s.cache
        accessOrder := s.accessOrder.filter (fun k2 => k2 != k)
        clock := s.clock + 1 }, true)
  else
    ({ s with clock := s.clock + 1 }, false)

/-- A cache operation issued by a client. -/
inductive CacheOp (K V : Type) where
  | get (k : K)
  | set (k : K) (v : V)
  | del (k : K)

/-- One operation step. -/
def runOp (s : CacheState K V) : CacheOp K V → CacheState K V
  | CacheOp.get k => (getOp s k).2
  | CacheOp.set k v => setOp s k v
  | CacheOp.del k => (deleteOp s k).1

/-- Running a whole operation sequence against the resource manager's
cache (`new LRUCache(50)` in the `ResourceManager` constructor). -/
def runOps (ops : List (CacheOp K V)) : CacheState K V :=
  ops.foldl runOp (mkCache 50)

/-- States reachable from the freshly constructed capacity-50 cache by
any sequence of `get`/`set`/`delete` operations. -/
def Reachable (s : CacheState K V) : Prop :=
  ∃ ops : List (CacheOp K V), runOps ops = s

/-- Inductive invariant tying the map, the order array and the ghost
clocks together: keys and order list have no duplicates and carry the
same members, lengths agree and stay within the capacity, the order is
strictly sorted by last-access time, and all stamps lie below the
clock. -/
def CacheInv (s : CacheState K V) : Prop :=
  s.maxSize = 50 ∧
  (s.cache.map Prod.fst).Nodup ∧
  s.accessOrder.Nodup ∧
  (∀ k : K, JSMap.mapHas k s.cache = true ↔ k ∈ s.accessOrder) ∧
  s.cache.length = s.accessOrder.length ∧
  s.cache.length ≤ 50 ∧
  s.accessOrder.Pairwise (fun a b => s.times a < s.times b) ∧
  (∀ k ∈ s.accessOrder, s.times k < s.clock)

end LRU

namespace ResourceLoading

/-!
Concurrency-control skeleton of `ResourceManager.processLoadingQueue` /
`executeLoadTask`: tasks are started only while
`activeLoads < maxConcurrentLoads`, `executeLoadTask` increments
`activeLoads` synchronously on entry and decrements it in its `finally`
block. The promise interleaving is abstracted to an arbitrary sequence of
start/finish events; everything else about a task (its id, priority and
payload) is irrelevant to the bound.
-/

/-- Abstracted load-queue state: the queue length and `activeLoads`. -/
structure LoadState where
  queued : Nat
  activeLoads : Nat
deriving DecidableEq, Repr

/-- Field `maxConcurrentLoads = 3`. -/
def maxConcurrentLoads : Nat := 3

/-- An asynchronous event: a task start or a task completion. -/
inductive LoadEvent where
  | start
  | finish

/-- One event of the loading loop. -/
def loadStep (s : LoadState) : LoadEvent → LoadState
  | LoadEvent.start =>
      if s.activeLoads < maxConcurrentLoads ∧ 0 < s.queued then
        { queued := s.queued - 1, activeLoads := s.activeLoads + 1 }
      else
        s
  | LoadEvent.finish =>
      if 0 < s.activeLoads then
        { s with activeLoads := s.activeLoads - 1 }
      else
        s

end ResourceLoading

namespace ObstacleM

theorem destroyBlock_mem (s : State) (b : Nat) (hb : b ∈ s.blocks) :
    destroyBlock s b =
      ({ blocks := s.blocks.erase b, destroyedBlocks := s.destroyedBlocks + 1 }, true) := by
  simp [destroyBlock, hb]

theorem destroyBlock_not_mem (s : State) (b : Nat) (hb : b ∉ s.blocks) :
    destroyBlock s b = (s, false) := by
  simp [destroyBlock, hb]

theorem inv_createBlocks : Inv createBlocks := by
  constructor
  · exact List.nodup_range totalBlocks
  · simp [createBlocks, totalBlocks, rows, columns]

theorem inv_destroyBlock (s : State) (b : Nat) (h : Inv s) :
    Inv (destroyBlock s b).1 := by
  by_cases hb : b ∈ s.blocks
  · rw [destroyBlock_mem s b hb]
    refine ⟨h.1.erase b, ?_⟩
    have hlen : (s.blocks.erase b).length = s.blocks.length - 1 :=
      List.length_erase_of_mem hb
    have hpos : 0 < s.blocks.length := List.length_pos_of_mem hb
    have := h.2
    simp only [hlen]
    omega
  · rw [destroyBlock_not_mem s b hb]
    exact h

theorem inv_foldl (calls : List Nat) (s : State) (h : Inv s) :
    Inv (calls.foldl (fun t b => (destroyBlock t b).1) s) := by
  induction calls generalizing s with
  | nil => exact h
  | cons b rest ih => exact ih _ (inv_destroyBlock s b h)

theorem inv_reachable (s : State) (h : Reachable s) : Inv s := by
  obtain ⟨calls, hc⟩ := h
  subst hc
  exact inv_foldl calls createBlocks inv_createBlocks

/-- Claim C9: for every reachable `Obstacle` state, `getBlockCount` plus
`getDestroyedCount` equals 12; `destroyBlock` returns `true` and removes
exactly the given block when it belongs to the obstacle and returns
`false` changing nothing otherwise; `isCompleted` returns `true` exactly
when all 12 blocks have been destroyed. -/
theorem claim_C9 (s : State) (hs : Reachable s) :
    getBlockCount s + getDestroyedCount s = 12 ∧
    (∀ b : Nat,
      (b ∈ s.blocks →
        (destroyBlock s b).2 = true ∧
        (destroyBlock s b).1.blocks = s.blocks.erase b ∧
        getBlockCount (destroyBlock s b).1 = getBlockCount s - 1 ∧
        getDestroyedCount (destroyBlock s b).1 = getDestroyedCount s + 1 ∧
        getBlockCount (destroyBlock s b).1 + getDestroyedCount (destroyBlock s b).1 = 12) ∧
      (b ∉ s.blocks → destroyBlock s b = (s, false))) ∧
    (isCompleted s = true ↔ getDestroyedCount s = 12) := by
  have hInv := inv_reachable s hs
  have htot : totalBlocks = 12 := by decide
  refine ⟨by simpa [getBlockCount, getDestroyedCount, htot] using hInv.2, ?_, ?_⟩
  · intro b
    constructor
    · intro hb
      have hstep := destroyBlock_mem s b hb
      have hlen : (s.blocks.erase b).length = s.blocks.length - 1 :=
        List.length_erase_of_mem hb
      have hpos : 0 < s.blocks.length := List.length_pos_of_mem hb
      have hsum := hInv.2
      rw [htot] at hsum
      refine ⟨by rw [hstep], by rw [hstep], ?_, by rw [hstep]; rfl, ?_⟩
      · rw [hstep]; simpa [getBlockCount] using hlen
      · rw [hstep]
        simp only [getBlockCount, getDestroyedCount, hlen]
        omega
    · intro hb
      exact destroyBlock_not_mem s b hb
  · have hsum := hInv.2
    rw [htot] at hsum
    constructor
    · intro h
      have : s.destroyedBlocks ≥ totalBlocks := by
        simpa [isCompleted] using h
      rw [htot] at this
      simp only [getDestroyedCount]
      omega
    · intro h
      simp only [getDestroyedCount] at h
      simp [isCompleted, htot, h]

/-- Concrete instantiation of `claim_C9` at the freshly constructed
obstacle, discharging its hypotheses. -/
theorem claim_C9_witness :
    getBlockCount createBlocks + getDestroyedCount createBlocks = 12 ∧
    (destroyBlock createBlocks 0).2 = true ∧
    (isCompleted createBlocks = true ↔ getDestroyedCount createBlocks = 12) :=
  ⟨(claim_C9 createBlocks ⟨[], rfl⟩).1,
   (((claim_C9 createBlocks ⟨[], rfl⟩).2.1 0).1 (by decide)).1,
   (claim_C9 createBlocks ⟨[], rfl⟩).2.2⟩

end ObstacleM

namespace GameModules

open Module

theorem reaches_closed {a c : Module} (h : Reaches a c)
    (ha : a = simpleShooterScene ∨ a = phaser) :
    c = simpleShooterScene ∨ c = phaser := by
  induction h with
  | refl m => exact ha
  | step hb _ ih =>
      rcases ha with h1 | h1 <;> subst h1 <;> simp only [imports] at hb
      · rw [List.mem_singleton] at hb
        subst hb
        exact ih (Or.inr rfl)
      · exact absurd hb (List.not_mem_nil _)

/-- Claim C1: the shipped game configuration's scene list is exactly
`[SimpleShooterScene]`; the atlas grass texture generator, resource
manager, memory optimizer and error handler are imported (only) by the
v0.3 backup main scene; and no execution starting from the shipped scene
list ever reaches (hence ever calls into) `AtlasGrassTexture`,
`ResourceManager`, `MemoryOptimizer` or `ErrorHandler`. -/
theorem claim_C1 :
    sceneList = [simpleShooterScene] ∧
    (atlasGrassTexture ∈ imports mainSceneBackup ∧
      resourceManager ∈ imports mainSceneBackup ∧
      memoryOptimizer ∈ imports mainSceneBackup ∧
      errorHandler ∈ imports mainSceneBackup) ∧
    (∀ root ∈ sceneList, ∀ m : Module, Reaches root m →
      m ≠ atlasGrassTexture ∧ m ≠ resourceManager ∧
        m ≠ memoryOptimizer ∧ m ≠ errorHandler) := by
  refine ⟨rfl, by decide, ?_⟩
  intro root hroot m hm
  rw [sceneList, List.mem_singleton] at hroot
  subst hroot
  rcases reaches_closed hm (Or.inl rfl) with h | h <;> subst h <;>
    exact ⟨by decide, by decide, by decide, by decide⟩

/-- Concrete instantiation of `claim_C1`'s reachability clause at the
shipped scene itself. -/
theorem claim_C1_witness :
    Module.simpleShooterScene ≠ Module.atlasGrassTexture ∧
    Module.simpleShooterScene ≠ Module.resourceManager ∧
    Module.simpleShooterScene ≠ Module.memoryOptimizer ∧
    Module.simpleShooterScene ≠ Module.errorHandler :=
  claim_C1.2.2 simpleShooterScene (by decide) simpleShooterScene
    (Reaches.refl simpleShooterScene)

end GameModules

namespace SimpleShooter

theorem aimInv_activate : AimInv activateAimingMode := by
  refine ⟨by norm_num [activateAimingMode], by norm_num [activateAimingMode], ?_⟩
  right
  rfl

theorem update_of_gt (d : ℚ) (s : AimState)
    (h : 270 < s.currentRotation + rotationSpeed * d / 1000 * s.rotationDirection) :
    updateAimingRotation d s = ⟨270, -1⟩ := by
  simp only [updateAimingRotation]
  rw [if_pos h]

theorem update_of_lt (d : ℚ) (s : AimState)
    (hgt : ¬ 270 < s.currentRotation + rotationSpeed * d / 1000 * s.rotationDirection)
    (hlt : s.currentRotation + rotationSpeed * d / 1000 * s.rotationDirection < 90) :
    updateAimingRotation d s = ⟨90, 1⟩ := by
  simp only [updateAimingRotation]
  rw [if_neg hgt, if_pos hlt]

theorem update_of_mid (d : ℚ) (s : AimState)
    (hgt : ¬ 270 < s.currentRotation + rotationSpeed * d / 1000 * s.rotationDirection)
    (hlt : ¬ s.currentRotation + rotationSpeed * d / 1000 * s.rotationDirection < 90) :
    updateAimingRotation d s =
      ⟨s.currentRotation + rotationSpeed * d / 1000 * s.rotationDirection,
        s.rotationDirection⟩ := by
  simp only [updateAimingRotation]
  rw [if_neg hgt, if_neg hlt]

theorem aimInv_update (d : ℚ) (s : AimState) (h : AimInv s) :
    AimInv (updateAimingRotation d s) := by
  obtain ⟨h1, h2, h3⟩ := h
  by_cases hgt : 270 < s.currentRotation + rotationSpeed * d / 1000 * s.rotationDirection
  · rw [update_of_gt d s hgt]
    exact ⟨by norm_num, by norm_num, Or.inr rfl⟩
  · by_cases hlt : s.currentRotation + rotationSpeed * d / 1000 * s.rotationDirection < 90
    · rw [update_of_lt d s hgt hlt]
      exact ⟨by norm_num, by norm_num, Or.inl rfl⟩
    · rw [update_of_mid d s hgt hlt]
      push_neg at hgt hlt
      exact ⟨hlt, hgt, h3⟩

theorem aimInv_runUpdates (deltas : List ℚ) (s : AimState) (h : AimInv s) :
    AimInv (runUpdates deltas s) := by
  induction deltas generalizing s with
  | nil => exact h
  | cons d rest ih => exact ih _ (aimInv_update d s h)

/-- Claim C10: activating aiming mode sets `currentRotation` to 270, any
sequence of `updateAimingRotation` calls keeps it inside `[90, 270]`, and
the sweep direction reverses exactly at the two bounds: a direction change
only happens when the rotation is clamped to a bound (with the matching
reversal), and an in-range step keeps the direction and moves by the
exact rotation amount. -/
theorem claim_C10 :
    activateAimingMode.currentRotation = 270 ∧
    (∀ deltas : List ℚ, (∀ d ∈ deltas, 0 ≤ d) →
      90 ≤ (runUpdates deltas activateAimingMode).currentRotation ∧
        (runUpdates deltas activateAimingMode).currentRotation ≤ 270) ∧
    (∀ (s : AimState) (d : ℚ), AimInv s → 0 ≤ d →
      ((updateAimingRotation d s).rotationDirection ≠ s.rotationDirection →
        ((updateAimingRotation d s).currentRotation = 270 ∧
          (updateAimingRotation d s).rotationDirection = -1 ∧ s.rotationDirection = 1) ∨
        ((updateAimingRotation d s).currentRotation = 90 ∧
          (updateAimingRotation d s).rotationDirection = 1 ∧ s.rotationDirection = -1)) ∧
      (90 ≤ s.currentRotation + rotationSpeed * d / 1000 * s.rotationDirection →
        s.currentRotation + rotationSpeed * d / 1000 * s.rotationDirection ≤ 270 →
        (updateAimingRotation d s).rotationDirection = s.rotationDirection ∧
          (updateAimingRotation d s).currentRotation =
            s.currentRotation + rotationSpeed * d / 1000 * s.rotationDirection)) := by
  refine ⟨rfl, ?_, ?_⟩
  · intro deltas _
    have h := aimInv_runUpdates deltas activateAimingMode aimInv_activate
    exact ⟨h.1, h.2.1⟩
  · intro s d hInv hd
    constructor
    · intro hdir
      by_cases hgt : 270 < s.currentRotation + rotationSpeed * d / 1000 * s.rotationDirection
      · left
        rw [update_of_gt d s hgt] at hdir ⊢
        rcases hInv.2.2 with h1 | h1
        · exact ⟨rfl, rfl, h1⟩
        · exact absurd h1.symm hdir
      · by_cases hlt : s.currentRotation + rotationSpeed * d / 1000 * s.rotationDirection < 90
        · right
          rw [update_of_lt d s hgt hlt] at hdir ⊢
          rcases hInv.2.2 with h1 | h1
          · exact absurd h1.symm hdir
          · exact ⟨rfl, rfl, h1⟩
        · rw [update_of_mid d s hgt hlt] at hdir
          exact absurd rfl hdir
    · intro hlo hhi
      rw [update_of_mid d s (by linarith) (by linarith)]
      exact ⟨rfl, rfl⟩

/-- Concrete instantiation of `claim_C10` discharging its hypotheses: one
update of 1000 ms from the activation state, and an in-range step from
rotation 180. -/
theorem claim_C10_witness :
    (90 ≤ (runUpdates [1000] activateAimingMode).currentRotation ∧
      (runUpdates [1000] activateAimingMode).currentRotation ≤ 270) ∧
    (90 ≤ (180 : ℚ) + rotationSpeed * 100 / 1000 * 1 →
      (180 : ℚ) + rotationSpeed * 100 / 1000 * 1 ≤ 270 →
      (updateAimingRotation 100 ⟨180, 1⟩).rotationDirection = (AimState.mk 180 1).rotationDirection ∧
        (updateAimingRotation 100 ⟨180, 1⟩).currentRotation =
          (180 : ℚ) + rotationSpeed * 100 / 1000 * 1) :=
  ⟨claim_C10.2.1 [1000]
      (by
        intro d hd
        rw [List.mem_singleton] at hd
        subst hd
        norm_num),
   (claim_C10.2.2 ⟨180, 1⟩ 100
      ⟨by norm_num, by norm_num, Or.inl rfl⟩ (by norm_num)).2⟩

end SimpleShooter

namespace ShooterScene

theorem handleSpacebarPress_accepted (now : Int) (dotX dotY sqrtLen : ℚ)
    (s : SceneState) (hcd : ¬ now - s.lastSpacebarPressTime < spacebarCooldown) :
    handleSpacebarPress now dotX dotY sqrtLen s =
      (let s1 : SceneState := { s with lastSpacebarPressTime := now, inputBuffer := false }
       match s.gameState with
       | GameState.IDLE => activateDirectionSelection s1
       | GameState.DIRECTION_SELECTION =>
           lockDirectionAndStartStrengthSelection now dotX dotY s1
       | GameState.STRENGTH_SELECTION => lockStrengthAndFire sqrtLen s1
       | GameState.FIRING => { s1 with inputBuffer := true }
       | GameState.WIN => s1) := by
  simp only [handleSpacebarPress]
  rw [if_neg hcd]

/-- Claim C2: an accepted spacebar press from `IDLE` starts direction
selection without firing; from `DIRECTION_SELECTION` it locks the
direction (from the orbiting dot's offset to the circle centre) and
starts strength selection without firing; from `STRENGTH_SELECTION` it
locks the strength and fires exactly one projectile; presses in the
`FIRING` or `WIN` states never fire; and a press fires only when both a
direction and a strength have been selected, i.e. only from
`STRENGTH_SELECTION`. -/
theorem claim_C2 (s : SceneState) (now : Int) (dotX dotY sqrtLen : ℚ)
    (hcd : ¬ now - s.lastSpacebarPressTime < spacebarCooldown) :
    (s.gameState = GameState.IDLE →
      (handleSpacebarPress now dotX dotY sqrtLen s).gameState =
          GameState.DIRECTION_SELECTION ∧
        (handleSpacebarPress now dotX dotY sqrtLen s).projectiles = s.projectiles) ∧
    (s.gameState = GameState.DIRECTION_SELECTION →
      (handleSpacebarPress now dotX dotY sqrtLen s).gameState =
          GameState.STRENGTH_SELECTION ∧
        (handleSpacebarPress now dotX dotY sqrtLen s).projectiles = s.projectiles ∧
        (handleSpacebarPress now dotX dotY sqrtLen s).lockedDirectionX = dotX - centerX ∧
        (handleSpacebarPress now dotX dotY sqrtLen s).lockedDirectionY = dotY - centerY) ∧
    (s.gameState = GameState.STRENGTH_SELECTION →
      (handleSpacebarPress now dotX dotY sqrtLen s).projectiles.length =
        s.projectiles.length + 1) ∧
    (s.gameState = GameState.FIRING ∨ s.gameState = GameState.WIN →
      (handleSpacebarPress now dotX dotY sqrtLen s).projectiles = s.projectiles) ∧
    ((handleSpacebarPress now dotX dotY sqrtLen s).projectiles.length ≠
        s.projectiles.length →
      s.gameState = GameState.STRENGTH_SELECTION) := by
  rw [handleSpacebarPress_accepted now dotX dotY sqrtLen s hcd]
  refine ⟨?_, ?_, ?_, ?_, ?_⟩
  · intro h
    rw [h]
    exact ⟨rfl, rfl⟩
  · intro h
    rw [h]
    exact ⟨rfl, rfl, rfl, rfl⟩
  · intro h
    rw [h]
    simp [lockStrengthAndFire, fireProjectile, resetSystem]
  · rintro (h | h) <;> rw [h]
  · intro hne
    cases h : s.gameState
    · rw [h] at hne
      exact absurd rfl hne
    · rw [h] at hne
      exact absurd rfl hne
    · rfl
    · rw [h] at hne
      exact absurd rfl hne
    · rw [h] at hne
      exact absurd rfl hne

/-- Concrete instantiation of `claim_C2` at an `IDLE` scene, a press at
time 1000 ms. -/
theorem claim_C2_witness :
    (handleSpacebarPress 1000 430 460 50
        ⟨GameState.IDLE, 0, false, 0, 0, 0, 0, 0, 0, 1, []⟩).gameState =
        GameState.DIRECTION_SELECTION ∧
      (handleSpacebarPress 1000 430 460 50
          ⟨GameState.IDLE, 0, false, 0, 0, 0, 0, 0, 0, 1, []⟩).projectiles =
        (⟨GameState.IDLE, 0, false, 0, 0, 0, 0, 0, 0, 1, []⟩ : SceneState).projectiles :=
  (claim_C2 ⟨GameState.IDLE, 0, false, 0, 0, 0, 0, 0, 0, 1, []⟩ 1000 430 460 50
      (by decide)).1 rfl

/-- Claim C3: every boundary bounce increments the projectile's bounce
count by exactly one and multiplies both velocity components by 0.82;
when the count reaches 4 a not-yet-fading projectile starts the 500 ms
fade-to-alpha-0 tween (an already-fading one is left alone, and below 4
bounces no fade starts); completing the fade destroys the projectile,
and the game state returns to `IDLE` exactly when the destroyed
projectile was the last active one. -/
theorem claim_C3 :
    (∀ p : Projectile,
      (handleProjectileBounce p).bounceCount = p.bounceCount + 1 ∧
      (handleProjectileBounce p).vx = p.vx * velocityReductionFactor ∧
      (handleProjectileBounce p).vy = p.vy * velocityReductionFactor ∧
      (p.bounceCount + 1 ≥ 4 → p.fading = false →
        (handleProjectileBounce p).fading = true ∧
          (handleProjectileBounce p).fadeTween =
            some { targetAlpha := 0, duration := 500 }) ∧
      (p.fading = true →
        (handleProjectileBounce p).fading = true ∧
          (handleProjectileBounce p).fadeTween = p.fadeTween) ∧
      (p.bounceCount + 1 < 4 →
        (handleProjectileBounce p).fading = p.fading ∧
          (handleProjectileBounce p).fadeTween = p.fadeTween)) ∧
    (∀ (s : SceneState) (i : Nat), i < s.projectiles.length →
      (completeProjectileFade s i).projectiles.length = s.projectiles.length - 1 ∧
      (s.projectiles.length = 1 →
        (completeProjectileFade s i).gameState = GameState.IDLE) ∧
      (1 < s.projectiles.length →
        (completeProjectileFade s i).gameState = s.gameState)) := by
  constructor
  · intro p
    refine ⟨?_, ?_, ?_, ?_, ?_, ?_⟩
    · simp only [handleProjectileBounce]
      split
      · split <;> rfl
      · rfl
    · simp only [handleProjectileBounce]
      split
      · split
        · rfl
        · rfl
      · rfl
    · simp only [handleProjectileBounce]
      split
      · split
        · rfl
        · rfl
      · rfl
    · intro h4 hf
      simp only [handleProjectileBounce]
      rw [if_pos h4]
      simp [hf, startProjectileFadeOut]
    · intro hf
      simp only [handleProjectileBounce]
      split
      · simp [hf]
      · exact ⟨hf, rfl⟩
    · intro hlt
      simp only [handleProjectileBounce]
      rw [if_neg (by omega)]
      exact ⟨rfl, rfl⟩
  · intro s i hi
    have hlen : ((s.projectiles.eraseIdx i).length + 1 = s.projectiles.length) :=
      List.length_eraseIdx_add_one hi
    refine ⟨?_, ?_, ?_⟩
    · simp only [completeProjectileFade]
      split <;> simp <;> omega
    · intro h1
      have : (s.projectiles.eraseIdx i).length = 0 := by omega
      simp only [completeProjectileFade]
      rw [if_pos this]
    · intro h1
      have : (s.projectiles.eraseIdx i).length ≠ 0 := by omega
      simp only [completeProjectileFade]
      rw [if_neg this]

/-- Concrete instantiation of `claim_C3`: a third bounce of a live
projectile reaches count 4 and starts the fade, and completing the fade
of the only remaining projectile returns the state to `IDLE`. -/
theorem claim_C3_witness :
    ((handleProjectileBounce
        ⟨100, -50, 3, false, 725, none⟩).bounceCount = (3 : Nat) + 1 ∧
      (handleProjectileBounce ⟨100, -50, 3, false, 725, none⟩).fading = true) ∧
    (completeProjectileFade
        ⟨GameState.FIRING, 0, false, 0, 0, 0, 0, 0, 0, 1,
          [⟨0, 0, 4, true, 725, some ⟨0, 500⟩⟩]⟩ 0).gameState = GameState.IDLE := by
  refine ⟨⟨(claim_C3.1 ⟨100, -50, 3, false, 725, none⟩).1, ?_⟩, ?_⟩
  · exact ((claim_C3.1 ⟨100, -50, 3, false, 725, none⟩).2.2.2.1 (by decide) rfl).1
  · exact (claim_C3.2
        ⟨GameState.FIRING, 0, false, 0, 0, 0, 0, 0, 0, 1,
          [⟨0, 0, 4, true, 725, some ⟨0, 500⟩⟩]⟩ 0 (by decide)).2.1 rfl

end ShooterScene

namespace AtlasGrass

theorem atlasInv_init : AtlasInv initializeObjectPools := by
  refine ⟨by simp [initializeObjectPools], ?_, ?_, ?_, ?_, ?_⟩
  · intro _
    simp [initializeObjectPools, poolSize, spriteLimit]
  · intro x _
    simp [initializeObjectPools]
  · simp only [initializeObjectPools]
    exact List.nodup_reverse.mpr (List.nodup_range poolSize)
  · intro x hx
    simp only [initializeObjectPools, List.mem_reverse, List.mem_range] at hx
    simpa [initializeObjectPools] using hx
  · intro x hx
    simp [initializeObjectPools] at hx

theorem atlasInv_create (s : AtlasState) (h : AtlasInv s) :
    AtlasInv (createGrassTile s) := by
  obtain ⟨h1, h2, h3, h4, h5, h6⟩ := h
  cases hp : s.spritePool with
  | cons sp rest =>
      have hsp_pool : sp ∈ s.spritePool := by
        rw [hp]; exact List.mem_cons_self sp rest
      have hsp_notin : sp ∉ s.activeSprites := h3 sp hsp_pool
      have hbound : s.activeSprites.card + (rest.length + 1) ≤ spriteLimit := by
        have := h2 (by rw [hp]; exact List.cons_ne_nil sp rest)
        rw [hp] at this
        simpa using this
      have hcard : (insert sp s.activeSprites).card = s.activeSprites.card + 1 :=
        Finset.card_insert_of_not_mem hsp_notin
      have hnodup_rest : rest.Nodup := by
        have := h4; rw [hp] at this; exact (List.nodup_cons.mp this).2
      have hsp_rest : sp ∉ rest := by
        have := h4; rw [hp] at this; exact (List.nodup_cons.mp this).1
      have hgps : getPooledSprite s = some (sp, { s with spritePool := rest }) := by
        simp [getPooledSprite, hp]
      have hct : createGrassTile s =
          { s with spritePool := rest,
                   activeSprites := insert sp s.activeSprites,
                   renderCount := s.renderCount + 1 } := by
        simp [createGrassTile, hgps]
      rw [hct]
      refine ⟨?_, ?_, ?_, hnodup_rest, ?_, ?_⟩
      · show (insert sp s.activeSprites).card ≤ spriteLimit
        omega
      · intro hne
        show (insert sp s.activeSprites).card + rest.length ≤ spriteLimit
        omega
      · intro x hx
        show x ∉ insert sp s.activeSprites
        have hx_pool : x ∈ s.spritePool := by
          rw [hp]; exact List.mem_cons_of_mem sp hx
        have hx_ne : x ≠ sp := fun hxe => hsp_rest (hxe ▸ hx)
        intro hmem
        rcases Finset.mem_insert.mp hmem with hc | hc
        · exact hx_ne hc
        · exact h3 x hx_pool hc
      · intro x hx
        exact h5 x (by rw [hp]; exact List.mem_cons_of_mem sp hx)
      · intro x hx
        rcases Finset.mem_insert.mp hx with hc | hc
        · subst hc
          exact h5 x hsp_pool
        · exact h6 x hc
  | nil =>
      by_cases hc : s.activeSprites.card < spriteLimit
      · have hgps : getPooledSprite s =
            some (s.nextSpriteId, { s with nextSpriteId := s.nextSpriteId + 1 }) := by
          simp [getPooledSprite, hp, hc]
        have hfresh : s.nextSpriteId ∉ s.activeSprites := by
          intro hmem
          exact absurd (h6 _ hmem) (lt_irrefl _)
        have hcard : (insert s.nextSpriteId s.activeSprites).card =
            s.activeSprites.card + 1 := Finset.card_insert_of_not_mem hfresh
        have hct : createGrassTile s =
            { s with nextSpriteId := s.nextSpriteId + 1,
                     activeSprites := insert s.nextSpriteId s.activeSprites,
                     renderCount := s.renderCount + 1 } := by
          simp [createGrassTile, hgps]
        rw [hct]
        refine ⟨?_, ?_, ?_, ?_, ?_, ?_⟩
        · show (insert s.nextSpriteId s.activeSprites).card ≤ spriteLimit
          omega
        · intro hne
          exact absurd hp hne
        · intro x hx
          rw [hp] at hx
          exact absurd hx (List.not_mem_nil x)
        · show s.spritePool.Nodup
          exact h4
        · intro x hx
          rw [hp] at hx
          exact absurd hx (List.not_mem_nil x)
        · intro x hx
          show x < s.nextSpriteId + 1
          rcases Finset.mem_insert.mp hx with hc2 | hc2
          · subst hc2; omega
          · exact lt_trans (h6 x hc2) (Nat.lt_succ_self _)
      · have hgps : getPooledSprite s = none := by
          simp [getPooledSprite, hp, hc]
        have hct : createGrassTile s = s := by
          simp [createGrassTile, hgps]
        rw [hct]
        exact ⟨h1, h2, h3, h4, h5, h6⟩

theorem atlasInv_ret (s : AtlasState) (sprite : Nat) (h : AtlasInv s)
    (hmem : sprite ∈ s.activeSprites) :
    AtlasInv (returnSpriteToPool s sprite) := by
  obtain ⟨h1, h2, h3, h4, h5, h6⟩ := h
  have hcard : (s.activeSprites.erase sprite).card = s.activeSprites.card - 1 :=
    Finset.card_erase_of_mem hmem
  have hpos : 0 < s.activeSprites.card := Finset.card_pos.mpr ⟨sprite, hmem⟩
  have hnotpool : sprite ∉ s.spritePool := fun hc => h3 sprite hc hmem
  refine ⟨?_, ?_, ?_, ?_, ?_, ?_⟩
  · show (s.activeSprites.erase sprite).card ≤ spriteLimit
    omega
  · intro _
    show (s.activeSprites.erase sprite).card + (sprite :: s.spritePool).length ≤ spriteLimit
    simp only [List.length_cons]
    by_cases hp : s.spritePool = []
    · rw [hp]
      simp only [List.length_nil]
      omega
    · have := h2 hp
      omega
  · intro x hx
    show x ∉ s.activeSprites.erase sprite
    rcases List.mem_cons.mp hx with hc | hc
    · subst hc
      exact Finset.not_mem_erase x s.activeSprites
    · intro hmem2
      exact h3 x hc (Finset.mem_of_mem_erase hmem2)
  · exact List.nodup_cons.mpr ⟨hnotpool, h4⟩
  · intro x hx
    rcases List.mem_cons.mp hx with hc | hc
    · subst hc
      exact h6 x hmem
    · exact h5 x hc
  · intro x hx
    exact h6 x (Finset.mem_of_mem_erase hx)

theorem atlasInv_step (s : AtlasState) (op : AtlasOp) (h : AtlasInv s) :
    AtlasInv (atlasStep s op) := by
  cases op with
  | create => exact atlasInv_create s h
  | ret sprite =>
      simp only [atlasStep]
      split
      · exact atlasInv_ret s sprite h (by assumption)
      · exact h

theorem atlasInv_foldl (ops : List AtlasOp) (s : AtlasState) (h : AtlasInv s) :
    AtlasInv (ops.foldl atlasStep s) := by
  induction ops generalizing s with
  | nil => exact h
  | cons op rest ih => exact ih _ (atlasInv_step s op h)

theorem atlasInv_reachable (s : AtlasState) (h : Reachable s) : AtlasInv s := by
  obtain ⟨ops, hops⟩ := h
  subst hops
  exact atlasInv_foldl ops initializeObjectPools atlasInv_init

end AtlasGrass

namespace AtlasGrass

/-- Claim C6: the pool is pre-allocated with 50 sprites; `getPooledSprite`
returns a pooled sprite whenever the pool is non-empty, creates a new
sprite only while fewer than 200 sprites are active, and returns `null`
otherwise; the number of active grass sprites never exceeds 200 in any
reachable state; and `createGrassTile` creates no tile when
`getPooledSprite` returns `null`. -/
theorem claim_C6 :
    initializeObjectPools.spritePool.length = 50 ∧
    (∀ s : AtlasState, s.spritePool ≠ [] →
      ∃ sprite rest, s.spritePool = sprite :: rest ∧
        getPooledSprite s = some (sprite, { s with spritePool := rest })) ∧
    (∀ s : AtlasState, s.spritePool = [] → s.activeSprites.card < 200 →
      getPooledSprite s =
        some (s.nextSpriteId, { s with nextSpriteId := s.nextSpriteId + 1 })) ∧
    (∀ s : AtlasState, s.spritePool = [] → ¬ s.activeSprites.card < 200 →
      getPooledSprite s = none) ∧
    (∀ s : AtlasState, getPooledSprite s = none → createGrassTile s = s) ∧
    (∀ s : AtlasState, Reachable s → s.activeSprites.card ≤ 200) := by
  refine ⟨by simp [initializeObjectPools, poolSize], ?_, ?_, ?_, ?_, ?_⟩
  · intro s hne
    cases hp : s.spritePool with
    | nil => exact absurd hp hne
    | cons sprite rest =>
        exact ⟨sprite, rest, rfl, by simp [getPooledSprite, hp]⟩
  · intro s hp hc
    simp [getPooledSprite, hp, spriteLimit, hc]
  · intro s hp hc
    simp [getPooledSprite, hp, spriteLimit, hc]
  · intro s hnone
    simp [createGrassTile, hnone]
  · intro s hs
    have h := atlasInv_reachable s hs
    simpa [spriteLimit] using h.1

/-- Concrete instantiation of `claim_C6`: the freshly initialized pool,
pool-exhausted states below and at the 200-sprite limit, and the initial
reachable state. -/
theorem claim_C6_witness :
    (∃ sprite rest, initializeObjectPools.spritePool = sprite :: rest ∧
      getPooledSprite initializeObjectPools =
        some (sprite, { initializeObjectPools with spritePool := rest })) ∧
    getPooledSprite (AtlasState.mk [] (Finset.range 200) 200 0) = none ∧
    createGrassTile (AtlasState.mk [] (Finset.range 200) 200 0) =
      AtlasState.mk [] (Finset.range 200) 200 0 ∧
    initializeObjectPools.activeSprites.card ≤ 200 :=
  ⟨claim_C6.2.1 initializeObjectPools (by decide),
   claim_C6.2.2.2.1 (AtlasState.mk [] (Finset.range 200) 200 0) rfl
      (by simp),
   claim_C6.2.2.2.2.1 (AtlasState.mk [] (Finset.range 200) 200 0)
      (claim_C6.2.2.2.1 (AtlasState.mk [] (Finset.range 200) 200 0) rfl (by simp)),
   claim_C6.2.2.2.2.2 initializeObjectPools ⟨[], rfl⟩⟩

end AtlasGrass

namespace JSMap

variable {K V : Type} [DecidableEq K]

theorem mapGet_set_self (k : K) (v : V) (l : List (K × V)) :
    mapGet k (mapSet k v l) = some v := by
  induction l with
  | nil => simp [mapGet, mapSet]
  | cons p rest ih =>
      obtain ⟨k1, v1⟩ := p
      by_cases h : k1 = k
      · subst h
        simp [mapSet, mapGet]
      · simp [mapSet, mapGet, h, ih]

theorem mapGet_set_ne (j k : K) (v : V) (l : List (K × V)) (hjk : j ≠ k) :
    mapGet j (mapSet k v l) = mapGet j l := by
  induction l with
  | nil =>
      simp [mapGet, mapSet]
      intro h
      exact absurd h.symm hjk
  | cons p rest ih =>
      obtain ⟨k1, v1⟩ := p
      by_cases h : k1 = k
      · subst h
        have : ¬ k1 = j := fun hc => hjk hc.symm
        simp [mapSet, mapGet, this]
      · by_cases h2 : k1 = j
        · subst h2
          simp [mapSet, mapGet, h]
        · simp [mapSet, mapGet, h, h2, ih]

theorem mapHas_of_get {k : K} {l : List (K × V)} {v : V}
    (h : mapGet k l = some v) : mapHas k l = true := by
  simp [mapHas, h]

end JSMap

namespace ErrorHandlerCB

theorem updateCB_failure_tracked (breakers : Breakers) (component : String)
    (now : Int) (br : CircuitBreaker)
    (hbr : JSMap.mapGet component breakers = some br) :
    JSMap.mapGet component (updateCircuitBreaker breakers component false now) =
      some { br with
               failureCount := br.failureCount + 1
               lastFailure := now
               state := (if br.failureCount + 1 ≥ br.threshold then CBState.opened
                         else br.state) } := by
  simp only [updateCircuitBreaker, hbr, Option.getD_some, Bool.false_eq_true, if_false]
  exact JSMap.mapGet_set_self component _ breakers

theorem updateCB_failure_fresh (breakers : Breakers) (component : String)
    (now : Int) (hbr : JSMap.mapGet component breakers = none) :
    JSMap.mapGet component (updateCircuitBreaker breakers component false now) =
      some { state := CBState.closed, failureCount := 1, lastFailure := now,
             threshold := 5, timeout := 60000 } := by
  simp only [updateCircuitBreaker, hbr, Option.getD_none, Bool.false_eq_true, if_false]
  have h := JSMap.mapGet_set_self (V := CircuitBreaker) component
      { newBreaker with
          failureCount := newBreaker.failureCount + 1
          lastFailure := now
          state := (if newBreaker.failureCount + 1 ≥ newBreaker.threshold then CBState.opened
                    else newBreaker.state) } breakers
  simpa [newBreaker] using h

theorem updateCB_success (breakers : Breakers) (component : String)
    (now : Int) (br : CircuitBreaker)
    (hbr : JSMap.mapGet component breakers = some br) :
    JSMap.mapGet component (updateCircuitBreaker breakers component true now) =
      some { br with failureCount := 0, state := CBState.closed } := by
  simp only [updateCircuitBreaker, hbr, Option.getD_some, if_true]
  exact JSMap.mapGet_set_self component _ breakers

theorem isCB_open_fresh_failure (breakers : Breakers) (component : String)
    (now : Int) (br : CircuitBreaker)
    (hbr : JSMap.mapGet component breakers = some br)
    (hst : br.state = CBState.opened) (hto : br.timeout = 60000)
    (helapsed : now - br.lastFailure < 60000) :
    isCircuitBreakerOpen breakers component now =
      (true, JSMap.mapSet component br breakers) := by
  have hcond : ¬ (br.state = CBState.opened ∧ now - br.lastFailure > br.timeout) := by
    rintro ⟨_, hgt⟩
    rw [hto] at hgt
    omega
  simp only [isCircuitBreakerOpen, hbr, if_neg hcond]
  simp [hst]

theorem isCB_open_elapsed (breakers : Breakers) (component : String)
    (now : Int) (br : CircuitBreaker)
    (hbr : JSMap.mapGet component breakers = some br)
    (hst : br.state = CBState.opened)
    (helapsed : now - br.lastFailure > br.timeout) :
    isCircuitBreakerOpen breakers component now =
      (false, JSMap.mapSet component { br with state := CBState.halfOpen } breakers) := by
  have hcond : br.state = CBState.opened ∧ now - br.lastFailure > br.timeout :=
    ⟨hst, helapsed⟩
  simp only [isCircuitBreakerOpen, hbr, if_pos hcond]
  simp

/-- Claim C5, amended: a recorded failure increments the component's
failure count and opens its breaker once the count reaches the threshold
of 5 (the breaker created for a fresh component carries threshold 5 and
timeout 60000 ms); while the breaker is open and less than 60000 ms have
elapsed since the last failure, `handleError` for that component returns
`null` without executing any fallback strategy; once more than 60000 ms
have elapsed the breaker transitions to half-open; and a recorded
success resets the failure count to 0 and closes the breaker. -/
theorem claim_C5 (breakers : Breakers) (component : String) (now : Int) :
    (∀ br : CircuitBreaker, JSMap.mapGet component breakers = some br →
      JSMap.mapGet component (updateCircuitBreaker breakers component false now) =
        some { br with
                 failureCount := br.failureCount + 1
                 lastFailure := now
                 state := (if br.failureCount + 1 ≥ br.threshold then CBState.opened
                           else br.state) } ∧
      (br.threshold = 5 → br.failureCount + 1 ≥ 5 →
        JSMap.mapGet component (updateCircuitBreaker breakers component false now) =
          some { br with
                   failureCount := br.failureCount + 1
                   lastFailure := now
                   state := CBState.opened })) ∧
    (JSMap.mapGet component breakers = none →
      JSMap.mapGet component (updateCircuitBreaker breakers component false now) =
        some { state := CBState.closed, failureCount := 1, lastFailure := now,
               threshold := 5, timeout := 60000 }) ∧
    (∀ (br : CircuitBreaker) (fallbackKey : Option String) (fallbackSucceeds : Bool),
      JSMap.mapGet component breakers = some br →
      br.state = CBState.opened → br.timeout = 60000 →
      now - br.lastFailure < 60000 →
      handleError breakers component fallbackKey fallbackSucceeds now =
        { result := none, fallbackExecuted := false,
          breakers := JSMap.mapSet component br breakers }) ∧
    (∀ br : CircuitBreaker, JSMap.mapGet component breakers = some br →
      br.state = CBState.opened → br.timeout = 60000 →
      now - br.lastFailure > 60000 →
      isCircuitBreakerOpen breakers component now =
        (false, JSMap.mapSet component { br with state := CBState.halfOpen } breakers)) ∧
    (∀ br : CircuitBreaker, JSMap.mapGet component breakers = some br →
      JSMap.mapGet component (updateCircuitBreaker breakers component true now) =
        some { br with failureCount := 0, state := CBState.closed }) := by
  refine ⟨?_, ?_, ?_, ?_, ?_⟩
  · intro br hbr
    refine ⟨updateCB_failure_tracked breakers component now br hbr, ?_⟩
    intro hth hfc
    have h := updateCB_failure_tracked breakers component now br hbr
    rw [hth] at h
    rw [if_pos hfc] at h
    rw [hth]
    exact h
  · exact updateCB_failure_fresh breakers component now
  · intro br fallbackKey fallbackSucceeds hbr hst hto helapsed
    have hr := isCB_open_fresh_failure breakers component now br hbr hst hto helapsed
    cases fallbackKey <;> simp [handleError, hr]
  · intro br hbr hst hto helapsed
    exact isCB_open_elapsed breakers component now br hbr hst (by omega)
  · exact updateCB_success breakers component now

end ErrorHandlerCB

namespace ErrorHandlerCB

/-- Counterexample to claim C5 as stated: with the breaker open and the
last failure 60000 ms ago (elapsed time exactly the timeout), the breaker
does **not** transition to half-open — `isCircuitBreakerOpen` still
reports it open and leaves it open, and `handleError` still returns
`null` without executing a fallback. The source requires
`now - lastFailure > timeout`, strictly. -/
theorem claim_C5_counterexample :
    ((60000 : Int) - 0 = 60000) ∧
    isCircuitBreakerOpen
        [("grass", { state := CBState.opened, failureCount := 5, lastFailure := 0,
                     threshold := 5, timeout := 60000 })]
        "grass" 60000 =
      (true,
        [("grass", { state := CBState.opened, failureCount := 5, lastFailure := 0,
                     threshold := 5, timeout := 60000 })]) ∧
    (handleError
        [("grass", { state := CBState.opened, failureCount := 5, lastFailure := 0,
                     threshold := 5, timeout := 60000 })]
        "grass" (some "fallback_background") true 60000).result = none ∧
    (handleError
        [("grass", { state := CBState.opened, failureCount := 5, lastFailure := 0,
                     threshold := 5, timeout := 60000 })]
        "grass" (some "fallback_background") true 60000).fallbackExecuted = false := by
  refine ⟨rfl, ?_, ?_, ?_⟩ <;> rfl

/-- Concrete instantiation of `claim_C5` discharging its hypotheses: a
tracked open breaker pressed before the timeout, after the timeout, on a
failure and on a success, and a fresh component's first failure. -/
theorem claim_C5_witness :
    (handleError
        [("grass", { state := CBState.opened, failureCount := 5, lastFailure := 0,
                     threshold := 5, timeout := 60000 })]
        "grass" (some "fallback_background") true 59999 =
      { result := none, fallbackExecuted := false,
        breakers :=
          JSMap.mapSet "grass"
            { state := CBState.opened, failureCount := 5, lastFailure := 0,
              threshold := 5, timeout := 60000 }
            [("grass", { state := CBState.opened, failureCount := 5, lastFailure := 0,
                         threshold := 5, timeout := 60000 })] }) ∧
    (isCircuitBreakerOpen
        [("grass", { state := CBState.opened, failureCount := 5, lastFailure := 0,
                     threshold := 5, timeout := 60000 })]
        "grass" 60001 =
      (false,
        JSMap.mapSet "grass"
          { state := CBState.halfOpen, failureCount := 5, lastFailure := 0,
            threshold := 5, timeout := 60000 }
          [("grass", { state := CBState.opened, failureCount := 5, lastFailure := 0,
                       threshold := 5, timeout := 60000 })])) ∧
    (JSMap.mapGet "grass"
        (updateCircuitBreaker
          [("grass", { state := CBState.closed, failureCount := 4, lastFailure := 0,
                       threshold := 5, timeout := 60000 })]
          "grass" false 7) =
      some { state := CBState.opened, failureCount := 5, lastFailure := 7,
             threshold := 5, timeout := 60000 }) ∧
    (JSMap.mapGet "grass"
        (updateCircuitBreaker
          [("grass", { state := CBState.opened, failureCount := 5, lastFailure := 0,
                       threshold := 5, timeout := 60000 })]
          "grass" true 7) =
      some { state := CBState.closed, failureCount := 0, lastFailure := 0,
             threshold := 5, timeout := 60000 }) ∧
    (JSMap.mapGet "grass" (updateCircuitBreaker [] "grass" false 7) =
      some { state := CBState.closed, failureCount := 1, lastFailure := 7,
             threshold := 5, timeout := 60000 }) := by
  refine ⟨?_, ?_, ?_, ?_, ?_⟩
  · exact (claim_C5 _ "grass" 59999).2.2.1 _ (some "fallback_background") true rfl rfl rfl
      (by decide)
  · exact (claim_C5
        [("grass", { state := CBState.opened, failureCount := 5, lastFailure := 0,
                     threshold := 5, timeout := 60000 })] "grass" 60001).2.2.2.1
      { state := CBState.opened, failureCount := 5, lastFailure := 0,
        threshold := 5, timeout := 60000 } rfl rfl rfl (by decide)
  · exact ((claim_C5
        [("grass", { state := CBState.closed, failureCount := 4, lastFailure := 0,
                     threshold := 5, timeout := 60000 })] "grass" 7).1
      { state := CBState.closed, failureCount := 4, lastFailure := 0,
        threshold := 5, timeout := 60000 } rfl).2 rfl (by decide)
  · exact (claim_C5
        [("grass", { state := CBState.opened, failureCount := 5, lastFailure := 0,
                     threshold := 5, timeout := 60000 })] "grass" 7).2.2.2.2
      { state := CBState.opened, failureCount := 5, lastFailure := 0,
        threshold := 5, timeout := 60000 } rfl
  · exact (claim_C5 [] "grass" 7).2.1 rfl

end ErrorHandlerCB

namespace VersionManagerM

theorem switchVersion_not_found (s : VMState) (versionId : String)
    (h : hasVersion s versionId = false) :
    switchVersion s versionId = (s, false) := by
  simp [switchVersion, h]

theorem switchVersion_found_ne (s : VMState) (versionId : String)
    (old v : GameVersion)
    (hcur : JSMap.mapGet s.currentVersion s.versions = some old)
    (hv : JSMap.mapGet versionId s.versions = some v)
    (hne : versionId ≠ s.currentVersion) :
    switchVersion s versionId =
      ({ versions :=
            JSMap.mapSet versionId { v with isActive := true }
              (JSMap.mapSet s.currentVersion { old with isActive := false } s.versions),
         currentVersion := versionId }, true) := by
  have hhas : ¬ hasVersion s versionId = false := by
    simp [hasVersion, JSMap.mapHas, hv]
  simp only [switchVersion, if_neg hhas, hcur]
  have hstep : JSMap.mapGet versionId
      (JSMap.mapSet s.currentVersion { old with isActive := false } s.versions) = some v := by
    rw [JSMap.mapGet_set_ne versionId s.currentVersion _ s.versions hne]
    exact hv
  simp only [hstep]

theorem switchVersion_found_self (s : VMState) (old : GameVersion)
    (hcur : JSMap.mapGet s.currentVersion s.versions = some old) :
    switchVersion s s.currentVersion =
      ({ versions :=
            JSMap.mapSet s.currentVersion { old with isActive := true }
              (JSMap.mapSet s.currentVersion { old with isActive := false } s.versions),
         currentVersion := s.currentVersion }, true) := by
  have hhas : ¬ hasVersion s s.currentVersion = false := by
    simp [hasVersion, JSMap.mapHas, hcur]
  simp only [switchVersion, if_neg hhas, hcur]
  have hstep : JSMap.mapGet s.currentVersion
      (JSMap.mapSet s.currentVersion { old with isActive := false } s.versions) =
        some { old with isActive := false } :=
    JSMap.mapGet_set_self s.currentVersion _ s.versions
  simp only [hstep]

/-- Claim C8, amended: `switchVersion` returns `true` iff the requested
id is registered; on `false` the state is completely unchanged; on `true`
the requested version becomes current with `isActive` set, and — when the
requested version differs from the previously current one — the
previously current version's `isActive` is cleared (a self-switch leaves
the current version active). -/
theorem claim_C8 (s : VMState) (versionId : String) (old : GameVersion)
    (hcur : JSMap.mapGet s.currentVersion s.versions = some old) :
    ((switchVersion s versionId).2 = true ↔ hasVersion s versionId = true) ∧
    (hasVersion s versionId = false → switchVersion s versionId = (s, false)) ∧
    (∀ v : GameVersion, JSMap.mapGet versionId s.versions = some v →
      (switchVersion s versionId).1.currentVersion = versionId ∧
      (∃ w : GameVersion,
        JSMap.mapGet versionId (switchVersion s versionId).1.versions = some w ∧
          w.isActive = true) ∧
      (versionId ≠ s.currentVersion →
        ∃ w : GameVersion,
          JSMap.mapGet s.currentVersion (switchVersion s versionId).1.versions = some w ∧
            w.isActive = false)) := by
  refine ⟨?_, switchVersion_not_found s versionId, ?_⟩
  · cases hh : hasVersion s versionId with
    | false =>
        rw [switchVersion_not_found s versionId hh]
    | true =>
        have hv : ∃ v, JSMap.mapGet versionId s.versions = some v := by
          have := hh
          simp only [hasVersion, JSMap.mapHas, Option.isSome_iff_exists] at this
          exact this
        obtain ⟨v, hv⟩ := hv
        by_cases hne : versionId = s.currentVersion
        · subst hne
          rw [switchVersion_found_self s old hcur]
        · rw [switchVersion_found_ne s versionId old v hcur hv hne]
  · intro v hv
    by_cases hne : versionId = s.currentVersion
    · subst hne
      rw [switchVersion_found_self s old hcur]
      refine ⟨rfl, ?_, ?_⟩
      · exact ⟨{ old with isActive := true },
          JSMap.mapGet_set_self _ _ _, rfl⟩
      · intro hc
        exact absurd rfl hc
    · rw [switchVersion_found_ne s versionId old v hcur hv hne]
      refine ⟨rfl, ?_, ?_⟩
      · exact ⟨{ v with isActive := true },
          JSMap.mapGet_set_self _ _ _, rfl⟩
      · intro _
        refine ⟨{ old with isActive := false }, ?_, rfl⟩
        have h1 : JSMap.mapGet s.currentVersion
            (JSMap.mapSet versionId { v with isActive := true }
              (JSMap.mapSet s.currentVersion { old with isActive := false } s.versions)) =
            JSMap.mapGet s.currentVersion
              (JSMap.mapSet s.currentVersion { old with isActive := false } s.versions) :=
          JSMap.mapGet_set_ne s.currentVersion versionId _ _ (fun hc => hne hc.symm)
        rw [h1]
        exact JSMap.mapGet_set_self _ _ _

/-- Counterexample to claim C8 as stated: switching to the version that
is already current returns `true`, but the previously current version's
`isActive` ends up `true`, not `false` — the code first clears and then
re-sets the same record. -/
theorem claim_C8_counterexample :
    initialState.currentVersion = "v0.2" ∧
    (switchVersion initialState "v0.2").2 = true ∧
    JSMap.mapGet "v0.2" (switchVersion initialState "v0.2").1.versions =
      some { id := "v0.2", name := "Version 0.2",
             description := "Stable release with developer menu and version control",
             isActive := true } := by
  refine ⟨rfl, ?_, ?_⟩ <;> rfl

/-- Concrete instantiation of `claim_C8` discharging its hypotheses: the
constructor state with `v0.1` additionally registered, switching to
`v0.1`. -/
theorem claim_C8_witness :
    (switchVersion (registerVersion initialState { id := "v0.1", name := "Version 0.1", description := "Initial version with basic shooting mechanics", isActive := false }) "v0.1").1.currentVersion = "v0.1" ∧
    (∃ w : GameVersion, JSMap.mapGet "v0.1" (switchVersion (registerVersion initialState { id := "v0.1", name := "Version 0.1", description := "Initial version with basic shooting mechanics", isActive := false }) "v0.1").1.versions = some w ∧ w.isActive = true) ∧
    ("v0.1" ≠ (registerVersion initialState { id := "v0.1", name := "Version 0.1", description := "Initial version with basic shooting mechanics", isActive := false }).currentVersion → ∃ w : GameVersion, JSMap.mapGet (registerVersion initialState { id := "v0.1", name := "Version 0.1", description := "Initial version with basic shooting mechanics", isActive := false }).currentVersion (switchVersion (registerVersion initialState { id := "v0.1", name := "Version 0.1", description := "Initial version with basic shooting mechanics", isActive := false }) "v0.1").1.versions = some w ∧ w.isActive = false) :=
  (claim_C8 (registerVersion initialState { id := "v0.1", name := "Version 0.1", description := "Initial version with basic shooting mechanics", isActive := false }) "v0.1" { id := "v0.2", name := "Version 0.2", description := "Stable release with developer menu and version control", isActive := true } rfl).2.2 { id := "v0.1", name := "Version 0.1", description := "Initial version with basic shooting mechanics", isActive := false } rfl

end VersionManagerM

namespace JSMap

variable {K V : Type} [DecidableEq K]

theorem mapHas_iff_mem (k : K) (l : List (K × V)) :
    mapHas k l = true ↔ k ∈ l.map Prod.fst := by
  induction l with
  | nil => simp [mapHas, mapGet]
  | cons p rest ih =>
      obtain ⟨k1, v1⟩ := p
      by_cases h : k1 = k
      · subst h
        simp [mapHas, mapGet]
      · simp only [mapHas, mapGet, if_neg h, List.map_cons, List.mem_cons]
        rw [← mapHas]
        rw [ih]
        constructor
        · exact Or.inr
        · rintro (hc | hc)
          · exact absurd hc.symm h
          · exact hc

theorem mapSet_of_not_has (k : K) (v : V) (l : List (K × V))
    (h : mapHas k l = false) : mapSet k v l = l ++ [(k, v)] := by
  induction l with
  | nil => simp [mapSet]
  | cons p rest ih =>
      obtain ⟨k1, v1⟩ := p
      by_cases hk : k1 = k
      · subst hk
        simp [mapHas, mapGet] at h
      · simp only [mapHas, mapGet, if_neg hk] at h
        rw [← mapHas] at h
        simp [mapSet, hk, ih h]

theorem map_fst_mapSet_of_has (k : K) (v : V) (l : List (K × V))
    (h : mapHas k l = true) : (mapSet k v l).map Prod.fst = l.map Prod.fst := by
  induction l with
  | nil => simp [mapHas, mapGet] at h
  | cons p rest ih =>
      obtain ⟨k1, v1⟩ := p
      by_cases hk : k1 = k
      · subst hk
        simp [mapSet]
      · simp only [mapHas, mapGet, if_neg hk] at h
        rw [← mapHas] at h
        simp [mapSet, hk, ih h]

theorem length_mapSet_of_has (k : K) (v : V) (l : List (K × V))
    (h : mapHas k l = true) : (mapSet k v l).length = l.length := by
  have := map_fst_mapSet_of_has k v l h
  have h1 : ((mapSet k v l).map Prod.fst).length = (l.map Prod.fst).length := by rw [this]
  simpa using h1

theorem length_mapDelete_of_has (k : K) (l : List (K × V))
    (h : mapHas k l = true) : (mapDelete k l).length = l.length - 1 := by
  induction l with
  | nil => simp [mapHas, mapGet] at h
  | cons p rest ih =>
      obtain ⟨k1, v1⟩ := p
      by_cases hk : k1 = k
      · subst hk
        simp [mapDelete]
      · simp only [mapHas, mapGet, if_neg hk] at h
        rw [← mapHas] at h
        have hlen : rest.length ≥ 1 := by
          cases rest with
          | nil => simp [mapHas, mapGet] at h
          | cons q t => simp
        simp only [mapDelete, if_neg hk, List.length_cons, ih h]
        omega

theorem map_fst_mapDelete_sublist (k : K) (l : List (K × V)) :
    ((mapDelete k l).map Prod.fst).Sublist (l.map Prod.fst) := by
  induction l with
  | nil => simp [mapDelete]
  | cons p rest ih =>
      obtain ⟨k1, v1⟩ := p
      by_cases hk : k1 = k
      · subst hk
        have hred : mapDelete k1 ((k1, v1) :: rest) = rest := by simp [mapDelete]
        rw [hred, List.map_cons]
        exact List.sublist_cons_self _ _
      · have hred : mapDelete k ((k1, v1) :: rest) = (k1, v1) :: mapDelete k rest := by
          simp [mapDelete, hk]
        rw [hred, List.map_cons, List.map_cons]
        exact ih.cons₂ k1

theorem mapHas_mapDelete (j k : K) (l : List (K × V))
    (hnd : (l.map Prod.fst).Nodup) :
    (mapHas j (mapDelete k l) = true) ↔ (mapHas j l = true ∧ j ≠ k) := by
  induction l with
  | nil => simp [mapHas, mapGet, mapDelete]
  | cons p rest ih =>
      obtain ⟨k1, v1⟩ := p
      simp only [List.map_cons, List.nodup_cons] at hnd
      by_cases hk : k1 = k
      · subst hk
        have hred : mapDelete k1 ((k1, v1) :: rest) = rest := by simp [mapDelete]
        rw [hred]
        constructor
        · intro h
          have hj : j ∈ rest.map Prod.fst := (mapHas_iff_mem j rest).mp h
          have hjk : j ≠ k1 := fun hc => hnd.1 (hc ▸ hj)
          have hk1j : ¬ k1 = j := fun hc => hjk hc.symm
          refine ⟨?_, hjk⟩
          show (mapGet j ((k1, v1) :: rest)).isSome = true
          simp only [mapGet, if_neg hk1j]
          exact h
        · rintro ⟨h, hjk⟩
          have hk1j : ¬ k1 = j := fun hc => hjk hc.symm
          simp only [mapHas, mapGet, if_neg hk1j] at h
          exact h
      · have hred : mapDelete k ((k1, v1) :: rest) = (k1, v1) :: mapDelete k rest := by
          simp [mapDelete, hk]
        rw [hred]
        by_cases hj : k1 = j
        · subst hj
          constructor
          · intro _
            refine ⟨?_, fun hc => hk hc⟩
            simp [mapHas, mapGet]
          · intro _
            simp [mapHas, mapGet]
        · have h1 : mapHas j ((k1, v1) :: mapDelete k rest) = mapHas j (mapDelete k rest) := by
            simp [mapHas, mapGet, hj]
          have h2 : mapHas j ((k1, v1) :: rest) = mapHas j rest := by
            simp [mapHas, mapGet, hj]
          rw [h1, h2]
          exact ih hnd.2

end JSMap

namespace LRU

variable {K V : Type} [DecidableEq K]

theorem mem_updateAccessOrder (order : List K) (k j : K) :
    j ∈ updateAccessOrder order k ↔ ((j ∈ order ∧ j ≠ k) ∨ j = k) := by
  simp [updateAccessOrder, List.mem_append, List.mem_filter]

theorem nodup_updateAccessOrder (order : List K) (k : K) (h : order.Nodup) :
    (updateAccessOrder order k).Nodup := by
  rw [updateAccessOrder, List.nodup_append]
  refine ⟨h.filter _, List.nodup_singleton k, ?_⟩
  intro a ha hb
  rw [List.mem_singleton] at hb
  subst hb
  have := (List.mem_filter.mp ha).2
  simp at this

theorem length_updateAccessOrder (order : List K) (k : K)
    (hnd : order.Nodup) (hk : k ∈ order) :
    (updateAccessOrder order k).length = order.length := by
  have h1 : (order.filter (fun k2 => k2 != k)).length = order.length - 1 := by
    have he := List.Nodup.erase_eq_filter hnd k
    rw [← he]
    exact List.length_erase_of_mem hk
  have hpos : 0 < order.length := List.length_pos_of_mem hk
  simp only [updateAccessOrder, List.length_append, List.length_singleton, h1]
  omega

theorem pairwise_updateAccessOrder (order : List K) (k : K) (times : K → Nat) (clock : Nat)
    (hpw : order.Pairwise (fun a b => times a < times b))
    (hlt : ∀ j ∈ order, times j < clock) :
    (updateAccessOrder order k).Pairwise (fun a b =>
      Function.update times k clock a < Function.update times k clock b) := by
  rw [updateAccessOrder, List.pairwise_append]
  refine ⟨?_, List.pairwise_singleton _ _, ?_⟩
  · have hsub : (order.filter (fun k2 => k2 != k)).Pairwise (fun a b => times a < times b) :=
      hpw.sublist (List.filter_sublist order)
    refine hsub.imp_of_mem ?_
    intro a b ha hb hab
    have hanek : a ≠ k := by simpa using (List.mem_filter.mp ha).2
    have hbnek : b ≠ k := by simpa using (List.mem_filter.mp hb).2
    rw [Function.update_noteq hanek, Function.update_noteq hbnek]
    exact hab
  · intro a ha b hb
    rw [List.mem_singleton] at hb
    rw [hb]
    have hmem := List.mem_filter.mp ha
    have hanek : a ≠ k := by simpa using hmem.2
    rw [Function.update_noteq hanek, Function.update_same]
    exact hlt a hmem.1

theorem pairwise_append_fresh (order : List K) (k : K) (times : K → Nat) (clock : Nat)
    (hpw : order.Pairwise (fun a b => times a < times b))
    (hlt : ∀ j ∈ order, times j < clock)
    (hknot : k ∉ order) :
    (order ++ [k]).Pairwise (fun a b =>
      Function.update times k clock a < Function.update times k clock b) := by
  rw [List.pairwise_append]
  refine ⟨?_, List.pairwise_singleton _ _, ?_⟩
  · refine hpw.imp_of_mem ?_
    intro a b ha hb hab
    have hak : a ≠ k := fun hc => hknot (hc ▸ ha)
    have hbk : b ≠ k := fun hc => hknot (hc ▸ hb)
    rw [Function.update_noteq hak, Function.update_noteq hbk]
    exact hab
  · intro a ha b hb
    rw [List.mem_singleton] at hb
    rw [hb]
    have hak : a ≠ k := fun hc => hknot (hc ▸ ha)
    rw [Function.update_noteq hak, Function.update_same]
    exact hlt a ha

theorem cacheInv_getOp (s : CacheState K V) (k : K) (h : CacheInv s) :
    CacheInv (getOp s k).2 := by
  obtain ⟨h1, h2, h3, h4, h5, h6, h7, h8⟩ := h
  by_cases hk : JSMap.mapHas k s.cache = true
  · have hmem : k ∈ s.accessOrder := (h4 k).mp hk
    have hres : (getOp s k).2 =
        { s with
            accessOrder := updateAccessOrder s.accessOrder k
            hits := s.hits + 1
            times := Function.update s.times k s.clock
            clock := s.clock + 1 } := by
      simp [getOp, hk]
    rw [hres]
    refine ⟨h1, h2, nodup_updateAccessOrder _ _ h3, ?_, ?_, h6, ?_, ?_⟩
    · intro j
      show JSMap.mapHas j s.cache = true ↔ j ∈ updateAccessOrder s.accessOrder k
      rw [mem_updateAccessOrder]
      have heq : ((j ∈ s.accessOrder ∧ j ≠ k) ∨ j = k) ↔ j ∈ s.accessOrder := by
        constructor
        · rintro (⟨hj, _⟩ | hj)
          · exact hj
          · exact hj ▸ hmem
        · intro hj
          by_cases hjk : j = k
          · exact Or.inr hjk
          · exact Or.inl ⟨hj, hjk⟩
      rw [heq]
      exact h4 j
    · show s.cache.length = (updateAccessOrder s.accessOrder k).length
      rw [length_updateAccessOrder _ _ h3 hmem]
      exact h5
    · exact pairwise_updateAccessOrder _ _ _ _ h7 h8
    · intro j hj
      rw [mem_updateAccessOrder] at hj
      rcases hj with ⟨hj, hjk⟩ | hjk
      · show Function.update s.times k s.clock j < s.clock + 1
        rw [Function.update_noteq hjk]
        exact lt_trans (h8 j hj) (Nat.lt_succ_self _)
      · subst hjk
        show Function.update s.times j s.clock j < s.clock + 1
        rw [Function.update_same]
        exact Nat.lt_succ_self _
  · have hres : (getOp s k).2 = { s with misses := s.misses + 1, clock := s.clock + 1 } := by
      simp [getOp, hk]
    rw [hres]
    exact ⟨h1, h2, h3, h4, h5, h6, h7,
      fun j hj => lt_trans (h8 j hj) (Nat.lt_succ_self _)⟩

end LRU

namespace LRU

variable {K V : Type} [DecidableEq K]

theorem bool_eq_false {b : Bool} (h : ¬ b = true) : b = false := by
  cases b
  · rfl
  · exact absurd rfl h

theorem cacheInv_setOp (s : CacheState K V) (k : K) (v : V) (h : CacheInv s) :
    CacheInv (setOp s k v) := by
  obtain ⟨h1, h2, h3, h4, h5, h6, h7, h8⟩ := h
  by_cases hk : JSMap.mapHas k s.cache = true
  · have hmem : k ∈ s.accessOrder := (h4 k).mp hk
    have hres : setOp s k v =
        { s with
            cache := JSMap.mapSet k v s.cache
            accessOrder := updateAccessOrder s.accessOrder k
            times := Function.update s.times k s.clock
            clock := s.clock + 1 } := by
      simp [setOp, hk]
    rw [hres]
    have hkeys : (JSMap.mapSet k v s.cache).map Prod.fst = s.cache.map Prod.fst :=
      JSMap.map_fst_mapSet_of_has k v s.cache hk
    refine ⟨h1, ?_, nodup_updateAccessOrder _ _ h3, ?_, ?_, ?_, ?_, ?_⟩
    · show ((JSMap.mapSet k v s.cache).map Prod.fst).Nodup
      rw [hkeys]
      exact h2
    · intro j
      show JSMap.mapHas j (JSMap.mapSet k v s.cache) = true ↔ j ∈ updateAccessOrder s.accessOrder k
      rw [JSMap.mapHas_iff_mem, hkeys, ← JSMap.mapHas_iff_mem, mem_updateAccessOrder]
      have heq : ((j ∈ s.accessOrder ∧ j ≠ k) ∨ j = k) ↔ j ∈ s.accessOrder := by
        constructor
        · rintro (⟨hj, _⟩ | hj)
          · exact hj
          · exact hj ▸ hmem
        · intro hj
          by_cases hjk : j = k
          · exact Or.inr hjk
          · exact Or.inl ⟨hj, hjk⟩
      rw [heq]
      exact h4 j
    · show (JSMap.mapSet k v s.cache).length = (updateAccessOrder s.accessOrder k).length
      rw [JSMap.length_mapSet_of_has k v s.cache hk, length_updateAccessOrder _ _ h3 hmem]
      exact h5
    · show (JSMap.mapSet k v s.cache).length ≤ 50
      rw [JSMap.length_mapSet_of_has k v s.cache hk]
      exact h6
    · exact pairwise_updateAccessOrder _ _ _ _ h7 h8
    · intro j hj
      rw [mem_updateAccessOrder] at hj
      rcases hj with ⟨hj, hjk⟩ | hjk
      · show Function.update s.times k s.clock j < s.clock + 1
        rw [Function.update_noteq hjk]
        exact lt_trans (h8 j hj) (Nat.lt_succ_self _)
      · rw [hjk]
        show Function.update s.times k s.clock k < s.clock + 1
        rw [Function.update_same]
        exact Nat.lt_succ_self _
  · have hkf : JSMap.mapHas k s.cache = false := bool_eq_false hk
    have hknotorder : k ∉ s.accessOrder := fun hc => hk ((h4 k).mpr hc)
    by_cases hcap : s.cache.length ≥ s.maxSize
    · -- at capacity: evict the LRU entry first
      have hlen50 : s.cache.length = 50 := by
        rw [h1] at hcap
        omega
      have horder_len : s.accessOrder.length = 50 := by
        rw [← h5]
        exact hlen50
      obtain ⟨lru, rest, horder⟩ : ∃ lru rest, s.accessOrder = lru :: rest := by
        cases ho : s.accessOrder with
        | nil =>
            rw [ho] at horder_len
            simp at horder_len
        | cons a t => exact ⟨a, t, rfl⟩
      have hev : evictLRU s =
          { s with cache := JSMap.mapDelete lru s.cache, accessOrder := rest } := by
        simp [evictLRU, horder]
      have hres : setOp s k v =
          { s with
              cache := JSMap.mapSet k v (JSMap.mapDelete lru s.cache)
              accessOrder := rest ++ [k]
              times := Function.update s.times k s.clock
              clock := s.clock + 1 } := by
        simp only [setOp, hkf, Bool.false_eq_true, if_false, if_pos hcap, hev]
      rw [hres]
      have hlru_mem : lru ∈ s.accessOrder := by
        rw [horder]
        exact List.mem_cons_self lru rest
      have hlru_has : JSMap.mapHas lru s.cache = true := (h4 lru).mpr hlru_mem
      have hlru_notrest : lru ∉ rest := by
        have := h3
        rw [horder] at this
        exact (List.nodup_cons.mp this).1
      have hrest_nodup : rest.Nodup := by
        have := h3
        rw [horder] at this
        exact (List.nodup_cons.mp this).2
      have hk_notrest : k ∉ rest := fun hc => hknotorder (by rw [horder]; exact List.mem_cons_of_mem lru hc)
      have hdel_nodup : ((JSMap.mapDelete lru s.cache).map Prod.fst).Nodup :=
        List.Nodup.sublist (JSMap.map_fst_mapDelete_sublist lru s.cache) h2
      have hk_del : JSMap.mapHas k (JSMap.mapDelete lru s.cache) = false := by
        refine bool_eq_false ?_
        intro hc
        have := (JSMap.mapHas_mapDelete k lru s.cache h2).mp hc
        rw [hkf] at this
        exact absurd this.1 (by simp)
      have happend : JSMap.mapSet k v (JSMap.mapDelete lru s.cache) =
          JSMap.mapDelete lru s.cache ++ [(k, v)] :=
        JSMap.mapSet_of_not_has k v _ hk_del
      have hdel_len : (JSMap.mapDelete lru s.cache).length = 49 := by
        rw [JSMap.length_mapDelete_of_has lru s.cache hlru_has, hlen50]
      have hrest_len : rest.length = 49 := by
        rw [horder] at horder_len
        simp at horder_len
        omega
      have hdel_mem : ∀ j : K,
          JSMap.mapHas j (JSMap.mapDelete lru s.cache) = true ↔ j ∈ rest := by
        intro j
        rw [JSMap.mapHas_mapDelete j lru s.cache h2]
        constructor
        · rintro ⟨hj, hjlru⟩
          have := (h4 j).mp hj
          rw [horder] at this
          rcases List.mem_cons.mp this with hc | hc
          · exact absurd hc hjlru
          · exact hc
        · intro hj
          refine ⟨(h4 j).mpr (by rw [horder]; exact List.mem_cons_of_mem lru hj), ?_⟩
          intro hc
          rw [hc] at hj
          exact hlru_notrest hj
      refine ⟨h1, ?_, ?_, ?_, ?_, ?_, ?_, ?_⟩
      · show ((JSMap.mapSet k v (JSMap.mapDelete lru s.cache)).map Prod.fst).Nodup
        rw [happend, List.map_append]
        rw [List.nodup_append]
        refine ⟨hdel_nodup, by simp, ?_⟩
        intro a ha hb
        simp only [List.map_cons, List.map_nil, List.mem_singleton] at hb
        rw [hb] at ha
        have : JSMap.mapHas k (JSMap.mapDelete lru s.cache) = true :=
          (JSMap.mapHas_iff_mem k _).mpr ha
        rw [hk_del] at this
        exact absurd this (by simp)
      · show (rest ++ [k]).Nodup
        rw [List.nodup_append]
        exact ⟨hrest_nodup, List.nodup_singleton k,
          fun a ha hb => hk_notrest (by rwa [List.mem_singleton.mp hb] at ha)⟩
      · intro j
        show JSMap.mapHas j (JSMap.mapSet k v (JSMap.mapDelete lru s.cache)) = true ↔
          j ∈ rest ++ [k]
        rw [happend, JSMap.mapHas_iff_mem, List.map_append, List.mem_append]
        simp only [List.map_cons, List.map_nil, List.mem_singleton, List.mem_append]
        rw [← JSMap.mapHas_iff_mem, hdel_mem j]
      · show (JSMap.mapSet k v (JSMap.mapDelete lru s.cache)).length = (rest ++ [k]).length
        rw [happend]
        simp [hdel_len, hrest_len]
      · show (JSMap.mapSet k v (JSMap.mapDelete lru s.cache)).length ≤ 50
        rw [happend]
        simp [hdel_len]
      · have hpw_rest : rest.Pairwise (fun a b => s.times a < s.times b) := by
          have := h7
          rw [horder] at this
          exact this.of_cons
        exact pairwise_append_fresh rest k s.times s.clock hpw_rest
          (fun j hj => h8 j (by rw [horder]; exact List.mem_cons_of_mem lru hj)) hk_notrest
      · intro j hj
        rcases List.mem_append.mp hj with hc | hc
        · have hjk : j ≠ k := fun hjc => hk_notrest (hjc ▸ hc)
          show Function.update s.times k s.clock j < s.clock + 1
          rw [Function.update_noteq hjk]
          exact lt_trans (h8 j (by rw [horder]; exact List.mem_cons_of_mem lru hc))
            (Nat.lt_succ_self _)
        · rw [List.mem_singleton.mp hc]
          show Function.update s.times k s.clock k < s.clock + 1
          rw [Function.update_same]
          exact Nat.lt_succ_self _
    · -- below capacity: plain append
      have hres : setOp s k v =
          { s with
              cache := JSMap.mapSet k v s.cache
              accessOrder := s.accessOrder ++ [k]
              times := Function.update s.times k s.clock
              clock := s.clock + 1 } := by
        simp only [setOp, hkf, Bool.false_eq_true, if_false, if_neg hcap]
      rw [hres]
      have hlen_lt : s.cache.length < 50 := by
        rw [h1] at hcap
        omega
      have happend : JSMap.mapSet k v s.cache = s.cache ++ [(k, v)] :=
        JSMap.mapSet_of_not_has k v s.cache hkf
      refine ⟨h1, ?_, ?_, ?_, ?_, ?_, ?_, ?_⟩
      · show ((JSMap.mapSet k v s.cache).map Prod.fst).Nodup
        rw [happend, List.map_append, List.nodup_append]
        refine ⟨h2, by simp, ?_⟩
        intro a ha hb
        simp only [List.map_cons, List.map_nil, List.mem_singleton] at hb
        rw [hb] at ha
        have : JSMap.mapHas k s.cache = true := (JSMap.mapHas_iff_mem k _).mpr ha
        rw [hkf] at this
        exact absurd this (by simp)
      · show (s.accessOrder ++ [k]).Nodup
        rw [List.nodup_append]
        exact ⟨h3, List.nodup_singleton k,
          fun a ha hb => hknotorder (by rwa [List.mem_singleton.mp hb] at ha)⟩
      · intro j
        show JSMap.mapHas j (JSMap.mapSet k v s.cache) = true ↔ j ∈ s.accessOrder ++ [k]
        rw [happend, JSMap.mapHas_iff_mem, List.map_append, List.mem_append]
        simp only [List.map_cons, List.map_nil, List.mem_singleton, List.mem_append]
        rw [← JSMap.mapHas_iff_mem, h4 j]
      · show (JSMap.mapSet k v s.cache).length = (s.accessOrder ++ [k]).length
        rw [happend]
        simp [h5]
      · show (JSMap.mapSet k v s.cache).length ≤ 50
        rw [happend]
        simp
        omega
      · exact pairwise_append_fresh s.accessOrder k s.times s.clock h7 h8 hknotorder
      · intro j hj
        rcases List.mem_append.mp hj with hc | hc
        · have hjk : j ≠ k := fun hjc => hknotorder (hjc ▸ hc)
          show Function.update s.times k s.clock j < s.clock + 1
          rw [Function.update_noteq hjk]
          exact lt_trans (h8 j hc) (Nat.lt_succ_self _)
        · rw [List.mem_singleton.mp hc]
          show Function.update s.times k s.clock k < s.clock + 1
          rw [Function.update_same]
          exact Nat.lt_succ_self _

end LRU

namespace LRU

variable {K V : Type} [DecidableEq K]

theorem cacheInv_deleteOp (s : CacheState K V) (k : K) (h : CacheInv s) :
    CacheInv (deleteOp s k).1 := by
  obtain ⟨h1, h2, h3, h4, h5, h6, h7, h8⟩ := h
  by_cases hk : JSMap.mapHas k s.cache = true
  · have hmem : k ∈ s.accessOrder := (h4 k).mp hk
    have hres : (deleteOp s k).1 =
        { s with
            cache := JSMap.mapDelete k s.cache
            accessOrder := s.accessOrder.filter (fun k2 => k2 != k)
            clock := s.clock + 1 } := by
      simp [deleteOp, hk]
    rw [hres]
    have hfilter_len : (s.accessOrder.filter (fun k2 => k2 != k)).length =
        s.accessOrder.length - 1 := by
      have he := List.Nodup.erase_eq_filter h3 k
      rw [← he]
      exact List.length_erase_of_mem hmem
    refine ⟨h1, ?_, h3.filter _, ?_, ?_, ?_, ?_, ?_⟩
    · exact List.Nodup.sublist (JSMap.map_fst_mapDelete_sublist k s.cache) h2
    · intro j
      show JSMap.mapHas j (JSMap.mapDelete k s.cache) = true ↔
        j ∈ s.accessOrder.filter (fun k2 => k2 != k)
      rw [JSMap.mapHas_mapDelete j k s.cache h2, List.mem_filter]
      rw [h4 j]
      simp
    · show (JSMap.mapDelete k s.cache).length =
        (s.accessOrder.filter (fun k2 => k2 != k)).length
      rw [JSMap.length_mapDelete_of_has k s.cache hk, hfilter_len, h5]
    · show (JSMap.mapDelete k s.cache).length ≤ 50
      rw [JSMap.length_mapDelete_of_has k s.cache hk]
      omega
    · exact h7.sublist (List.filter_sublist s.accessOrder)
    · intro j hj
      have := (List.mem_filter.mp hj).1
      exact lt_trans (h8 j this) (Nat.lt_succ_self _)
  · have hres : (deleteOp s k).1 = { s with clock := s.clock + 1 } := by
      simp [deleteOp, hk]
    rw [hres]
    exact ⟨h1, h2, h3, h4, h5, h6, h7,
      fun j hj => lt_trans (h8 j hj) (Nat.lt_succ_self _)⟩

theorem cacheInv_runOp (s : CacheState K V) (op : CacheOp K V) (h : CacheInv s) :
    CacheInv (runOp s op) := by
  cases op with
  | get k => exact cacheInv_getOp s k h
  | set k v => exact cacheInv_setOp s k v h
  | del k => exact cacheInv_deleteOp s k h

theorem cacheInv_mkCache : CacheInv (mkCache 50 : CacheState K V) := by
  refine ⟨rfl, ?_, ?_, ?_, rfl, ?_, ?_, ?_⟩ <;>
    simp [mkCache, JSMap.mapHas, JSMap.mapGet]

theorem cacheInv_foldl (ops : List (CacheOp K V)) (s : CacheState K V) (h : CacheInv s) :
    CacheInv (ops.foldl runOp s) := by
  induction ops generalizing s with
  | nil => exact h
  | cons op rest ih => exact ih _ (cacheInv_runOp s op h)

theorem cacheInv_reachable (s : CacheState K V) (h : Reachable s) : CacheInv s := by
  obtain ⟨ops, hops⟩ := h
  subst hops
  exact cacheInv_foldl ops (mkCache 50) cacheInv_mkCache

end LRU

namespace LRU

variable {K V : Type} [DecidableEq K]

theorem mapHas_mapSet_ne (j k : K) (v : V) (l : List (K × V)) (hjk : j ≠ k) :
    JSMap.mapHas j (JSMap.mapSet k v l) = JSMap.mapHas j l := by
  show (JSMap.mapGet j (JSMap.mapSet k v l)).isSome = (JSMap.mapGet j l).isSome
  rw [JSMap.mapGet_set_ne j k v l hjk]

theorem setOp_evict_spec (s : CacheState K V) (k : K) (v : V)
    (hinv : CacheInv s) (hkf : JSMap.mapHas k s.cache = false)
    (hlen50 : s.cache.length = 50) :
    ∃ lru rest, s.accessOrder = lru :: rest ∧
      JSMap.mapHas lru s.cache = true ∧
      JSMap.mapHas lru (setOp s k v).cache = false ∧
      (∀ j : K, JSMap.mapHas j s.cache = true → j ≠ lru →
        JSMap.mapHas j (setOp s k v).cache = true) ∧
      (∀ j : K, JSMap.mapHas j s.cache = true →
        JSMap.mapHas j (setOp s k v).cache = false → j = lru) ∧
      (∀ j ∈ s.accessOrder, j ≠ lru → s.times lru < s.times j) ∧
      JSMap.mapHas k (setOp s k v).cache = true ∧
      (setOp s k v).cache.length = 50 := by
  obtain ⟨h1, h2, h3, h4, h5, h6, h7, h8⟩ := hinv
  have hcap : s.cache.length ≥ s.maxSize := by
    rw [h1, hlen50]
  have horder_len : s.accessOrder.length = 50 := by
    rw [← h5]
    exact hlen50
  obtain ⟨lru, rest, horder⟩ : ∃ lru rest, s.accessOrder = lru :: rest := by
    cases ho : s.accessOrder with
    | nil =>
        rw [ho] at horder_len
        simp at horder_len
    | cons a t => exact ⟨a, t, rfl⟩
  have hev : evictLRU s =
      { s with cache := JSMap.mapDelete lru s.cache, accessOrder := rest } := by
    simp [evictLRU, horder]
  have hres : (setOp s k v).cache = JSMap.mapSet k v (JSMap.mapDelete lru s.cache) := by
    simp only [setOp, hkf, Bool.false_eq_true, if_false, if_pos hcap, hev]
  have hlru_mem : lru ∈ s.accessOrder := by
    rw [horder]
    exact List.mem_cons_self lru rest
  have hlru_has : JSMap.mapHas lru s.cache = true := (h4 lru).mpr hlru_mem
  have hlru_ne_k : lru ≠ k := by
    intro hc
    rw [hc, hkf] at hlru_has
    exact absurd hlru_has (by simp)
  have hlru_notrest : lru ∉ rest := by
    have := h3
    rw [horder] at this
    exact (List.nodup_cons.mp this).1
  have hlru_del : JSMap.mapHas lru (JSMap.mapDelete lru s.cache) = false := by
    refine bool_eq_false ?_
    intro hc
    exact ((JSMap.mapHas_mapDelete lru lru s.cache h2).mp hc).2 rfl
  have hk_del : JSMap.mapHas k (JSMap.mapDelete lru s.cache) = false := by
    refine bool_eq_false ?_
    intro hc
    have := ((JSMap.mapHas_mapDelete k lru s.cache h2).mp hc).1
    rw [hkf] at this
    exact absurd this (by simp)
  refine ⟨lru, rest, horder, hlru_has, ?_, ?_, ?_, ?_, ?_, ?_⟩
  · rw [hres, mapHas_mapSet_ne lru k v _ hlru_ne_k]
    exact hlru_del
  · intro j hj hjlru
    have hjk : j ≠ k := by
      intro hc
      rw [hc, hkf] at hj
      exact absurd hj (by simp)
    rw [hres, mapHas_mapSet_ne j k v _ hjk]
    exact (JSMap.mapHas_mapDelete j lru s.cache h2).mpr ⟨hj, hjlru⟩
  · intro j hj hjset
    by_contra hjlru
    have hjk : j ≠ k := by
      intro hc
      rw [hc, hkf] at hj
      exact absurd hj (by simp)
    have : JSMap.mapHas j (setOp s k v).cache = true := by
      rw [hres, mapHas_mapSet_ne j k v _ hjk]
      exact (JSMap.mapHas_mapDelete j lru s.cache h2).mpr ⟨hj, hjlru⟩
    rw [hjset] at this
    exact absurd this (by simp)
  · intro j hj hjlru
    have hpair := h7
    rw [horder] at hpair
    have := (List.pairwise_cons.mp hpair).1
    rw [horder] at hj
    rcases List.mem_cons.mp hj with hc | hc
    · exact absurd hc hjlru
    · exact this j hc
  · rw [hres]
    show (JSMap.mapGet k (JSMap.mapSet k v (JSMap.mapDelete lru s.cache))).isSome = true
    rw [JSMap.mapGet_set_self]
    rfl
  · rw [hres, JSMap.mapSet_of_not_has k v _ hk_del]
    have hdel_len : (JSMap.mapDelete lru s.cache).length = 49 := by
      rw [JSMap.length_mapDelete_of_has lru s.cache hlru_has, hlen50]
    simp [hdel_len]

end LRU

namespace LRU

variable {K V : Type} [DecidableEq K]

theorem getOp_refresh (s : CacheState K V) (k : K) (hinv : CacheInv s)
    (hk : JSMap.mapHas k s.cache = true) :
    k ∈ (getOp s k).2.accessOrder ∧
    (∀ j ∈ (getOp s k).2.accessOrder, j ≠ k →
      (getOp s k).2.times j < (getOp s k).2.times k) ∧
    JSMap.mapHas k (getOp s k).2.cache = true := by
  obtain ⟨h1, h2, h3, h4, h5, h6, h7, h8⟩ := hinv
  have hres : (getOp s k).2 =
      { s with
          accessOrder := updateAccessOrder s.accessOrder k
          hits := s.hits + 1
          times := Function.update s.times k s.clock
          clock := s.clock + 1 } := by
    simp [getOp, hk]
  rw [hres]
  refine ⟨?_, ?_, hk⟩
  · show k ∈ updateAccessOrder s.accessOrder k
    rw [mem_updateAccessOrder]
    exact Or.inr rfl
  · intro j hj hjk
    show Function.update s.times k s.clock j < Function.update s.times k s.clock k
    rw [Function.update_noteq hjk, Function.update_same]
    have hj2 : j ∈ updateAccessOrder s.accessOrder k := hj
    rw [mem_updateAccessOrder] at hj2
    rcases hj2 with ⟨hjo, _⟩ | hjeq
    · exact h8 j hjo
    · exact absurd hjeq hjk

theorem setOp_refresh (s : CacheState K V) (k : K) (v : V) (hinv : CacheInv s)
    (hk : JSMap.mapHas k s.cache = true) :
    k ∈ (setOp s k v).accessOrder ∧
    (∀ j ∈ (setOp s k v).accessOrder, j ≠ k →
      (setOp s k v).times j < (setOp s k v).times k) ∧
    JSMap.mapGet k (setOp s k v).cache = some v ∧
    (setOp s k v).cache.length = s.cache.length := by
  obtain ⟨h1, h2, h3, h4, h5, h6, h7, h8⟩ := hinv
  have hres : setOp s k v =
      { s with
          cache := JSMap.mapSet k v s.cache
          accessOrder := updateAccessOrder s.accessOrder k
          times := Function.update s.times k s.clock
          clock := s.clock + 1 } := by
    simp [setOp, hk]
  rw [hres]
  refine ⟨?_, ?_, ?_, ?_⟩
  · show k ∈ updateAccessOrder s.accessOrder k
    rw [mem_updateAccessOrder]
    exact Or.inr rfl
  · intro j hj hjk
    show Function.update s.times k s.clock j < Function.update s.times k s.clock k
    rw [Function.update_noteq hjk, Function.update_same]
    have hj2 : j ∈ updateAccessOrder s.accessOrder k := hj
    rw [mem_updateAccessOrder] at hj2
    rcases hj2 with ⟨hjo, _⟩ | hjeq
    · exact h8 j hjo
    · exact absurd hjeq hjk
  · exact JSMap.mapGet_set_self k v s.cache
  · exact JSMap.length_mapSet_of_has k v s.cache hk

/-- Claim C4: the resource cache is an LRU cache of capacity 50 — over
every sequence of `get`/`set`/`delete` operations the number of stored
entries never exceeds 50; a `get` of an existing key and a `set` of an
existing key make that key the most recently accessed one (every other
key in the order has a strictly older access stamp) while keeping it
cached; and a `set` that inserts a fresh key while the cache holds 50
entries evicts exactly the least recently accessed key: the front of the
access order, which was cached, is the unique key removed, its access
stamp is strictly older than that of every other cached key, the new key
is stored and the size stays 50. -/
theorem claim_C4 (K V : Type) [DecidableEq K] :
    (∀ s : CacheState K V, Reachable s → s.cache.length ≤ 50) ∧
    (∀ (s : CacheState K V) (k : K), Reachable s → JSMap.mapHas k s.cache = true →
      k ∈ (getOp s k).2.accessOrder ∧
      (∀ j ∈ (getOp s k).2.accessOrder, j ≠ k →
        (getOp s k).2.times j < (getOp s k).2.times k) ∧
      JSMap.mapHas k (getOp s k).2.cache = true) ∧
    (∀ (s : CacheState K V) (k : K) (v : V), Reachable s → JSMap.mapHas k s.cache = true →
      k ∈ (setOp s k v).accessOrder ∧
      (∀ j ∈ (setOp s k v).accessOrder, j ≠ k →
        (setOp s k v).times j < (setOp s k v).times k) ∧
      JSMap.mapGet k (setOp s k v).cache = some v ∧
      (setOp s k v).cache.length = s.cache.length) ∧
    (∀ (s : CacheState K V) (k : K) (v : V), Reachable s →
      JSMap.mapHas k s.cache = false → s.cache.length = 50 →
      ∃ lru rest, s.accessOrder = lru :: rest ∧
        JSMap.mapHas lru s.cache = true ∧
        JSMap.mapHas lru (setOp s k v).cache = false ∧
        (∀ j : K, JSMap.mapHas j s.cache = true → j ≠ lru →
          JSMap.mapHas j (setOp s k v).cache = true) ∧
        (∀ j : K, JSMap.mapHas j s.cache = true →
          JSMap.mapHas j (setOp s k v).cache = false → j = lru) ∧
        (∀ j ∈ s.accessOrder, j ≠ lru → s.times lru < s.times j) ∧
        JSMap.mapHas k (setOp s k v).cache = true ∧
        (setOp s k v).cache.length = 50) := by
  refine ⟨?_, ?_, ?_, ?_⟩
  · intro s hs
    exact (cacheInv_reachable s hs).2.2.2.2.2.1
  · intro s k hs hk
    exact getOp_refresh s k (cacheInv_reachable s hs) hk
  · intro s k v hs hk
    exact setOp_refresh s k v (cacheInv_reachable s hs) hk
  · intro s k v hs hkf hlen
    exact setOp_evict_spec s k v (cacheInv_reachable s hs) hkf hlen

end LRU

namespace LRU

set_option maxRecDepth 8000

/-- Concrete instantiation of `claim_C4` at `K = V = Nat`, discharging
its hypotheses: the state reached by 50 distinct `set`s (a full cache),
a one-entry cache for the refresh clauses, and a fresh 51st `set` for the
eviction clause. -/
theorem claim_C4_witness :
    (runOps ((List.range 50).map (fun i => CacheOp.set i i)) : CacheState Nat Nat).cache.length ≤ 50 ∧
    1 ∈ (getOp (runOps [CacheOp.set 1 10] : CacheState Nat Nat) 1).2.accessOrder ∧
    JSMap.mapGet 1 (setOp (runOps [CacheOp.set 1 10] : CacheState Nat Nat) 1 20).cache = some 20 ∧
    (∃ lru rest,
      (runOps ((List.range 50).map (fun i => CacheOp.set i i)) : CacheState Nat Nat).accessOrder = lru :: rest ∧
      JSMap.mapHas lru (runOps ((List.range 50).map (fun i => CacheOp.set i i)) : CacheState Nat Nat).cache = true ∧
      JSMap.mapHas lru (setOp (runOps ((List.range 50).map (fun i => CacheOp.set i i)) : CacheState Nat Nat) 50 50).cache = false ∧
      (∀ j : Nat, JSMap.mapHas j (runOps ((List.range 50).map (fun i => CacheOp.set i i)) : CacheState Nat Nat).cache = true → j ≠ lru →
        JSMap.mapHas j (setOp (runOps ((List.range 50).map (fun i => CacheOp.set i i)) : CacheState Nat Nat) 50 50).cache = true) ∧
      (∀ j : Nat, JSMap.mapHas j (runOps ((List.range 50).map (fun i => CacheOp.set i i)) : CacheState Nat Nat).cache = true →
        JSMap.mapHas j (setOp (runOps ((List.range 50).map (fun i => CacheOp.set i i)) : CacheState Nat Nat) 50 50).cache = false → j = lru) ∧
      (∀ j ∈ (runOps ((List.range 50).map (fun i => CacheOp.set i i)) : CacheState Nat Nat).accessOrder, j ≠ lru →
        (runOps ((List.range 50).map (fun i => CacheOp.set i i)) : CacheState Nat Nat).times lru <
          (runOps ((List.range 50).map (fun i => CacheOp.set i i)) : CacheState Nat Nat).times j) ∧
      JSMap.mapHas 50 (setOp (runOps ((List.range 50).map (fun i => CacheOp.set i i)) : CacheState Nat Nat) 50 50).cache = true ∧
      (setOp (runOps ((List.range 50).map (fun i => CacheOp.set i i)) : CacheState Nat Nat) 50 50).cache.length = 50) :=
  ⟨(claim_C4 Nat Nat).1 _ ⟨(List.range 50).map (fun i => CacheOp.set i i), rfl⟩,
   ((claim_C4 Nat Nat).2.1 _ 1 ⟨[CacheOp.set 1 10], rfl⟩ (by decide)).1,
   ((claim_C4 Nat Nat).2.2.1 _ 1 20 ⟨[CacheOp.set 1 10], rfl⟩ (by decide)).2.2.1,
   (claim_C4 Nat Nat).2.2.2 _ 50 50
     ⟨(List.range 50).map (fun i => CacheOp.set i i), rfl⟩ (by decide) (by decide)⟩

end LRU

namespace ResourceLoading

theorem loadStep_le_three (s : LoadState) (e : LoadEvent)
    (h : s.activeLoads ≤ 3) : (loadStep s e).activeLoads ≤ 3 := by
  cases e with
  | start =>
      simp only [loadStep]
      split
      · rename_i hc
        have h1 := hc.1
        simp only [maxConcurrentLoads] at h1
        show s.activeLoads + 1 ≤ 3
        omega
      · exact h
  | finish =>
      simp only [loadStep]
      split
      · show s.activeLoads - 1 ≤ 3
        omega
      · exact h

/-- The resource manager keeps at most `maxConcurrentLoads = 3` loads
active under any interleaving of task starts and completions. (Proved as
supporting material for the concurrency discussion; the single-threaded
cooperative execution of the host runtime itself is not a property of
the embedded code.) -/
theorem activeLoads_le_three (events : List LoadEvent) (q : Nat) :
    (events.foldl loadStep ⟨q, 0⟩).activeLoads ≤ 3 := by
  have hgen : ∀ (evs : List LoadEvent) (s : LoadState), s.activeLoads ≤ 3 →
      (evs.foldl loadStep s).activeLoads ≤ 3 := by
    intro evs
    induction evs with
    | nil => exact fun s h => h
    | cons e rest ih => exact fun s h => ih _ (loadStep_le_three s e h)
  exact hgen events ⟨q, 0⟩ (by show (0 : Nat) ≤ 3; omega)

end ResourceLoading
